import Mathlib

/-!
Verification development for `Linux/klipper_support.py` (Sineos/useful_bits).

The script is embedded shallowly: strings are `List Char`, the file system,
external commands and the clock are an explicit environment of oracles, and
each step of `main` is a pure function threading an explicit state.  Python
exceptions are modelled by `Except` / an `Option PyErr` error slot that the
top-level handler of `main` consumes.
-/

namespace KlipperSupport

/-- Characters treated as whitespace by Python's `str.strip()` / `str.split()`. -/
def isPySpace (c : Char) : Bool :=
  c = ' ' || c = '\t' || c = '\n' || c = '\r' || c = '\x0b' || c = '\x0c'

/-- Python `str.lstrip()` on the whitespace character class. -/
def pyLStrip (l : List Char) : List Char := l.dropWhile isPySpace

/-- Python `str.strip()` (no argument): drop leading and trailing whitespace. -/
def pyStripWsBoth (l : List Char) : List Char :=
  ((l.dropWhile isPySpace).reverse.dropWhile isPySpace).reverse

/-- Python `str.strip(c)` for a single character argument: drop every leading
and trailing occurrence of `c`. -/
def pyStripChar (c : Char) (l : List Char) : List Char :=
  ((l.dropWhile (fun x => x = c)).reverse.dropWhile (fun x => x = c)).reverse

/-- Python `str.split(sep)` for a one-character separator `sep`: split at every
occurrence, keeping empty fields (`''.split('=') == ['']`). -/
def pySplitOnChar (sep : Char) : List Char → List (List Char)
  | [] => [[]]
  | a :: rest =>
    if a = sep then [] :: pySplitOnChar sep rest
    else
      match pySplitOnChar sep rest with
      | [] => [[a]]
      | h :: t => (a :: h) :: t

/-- Index of the first occurrence of the (contiguous) sublist `sep` in `l`,
mirroring Python's `str.find` used by `in` / `str.split`. -/
def firstOccur (sep : List Char) : List Char → Option Nat
  | [] => if sep.isPrefixOf ([] : List Char) then some 0 else none
  | c :: rest =>
    if sep.isPrefixOf (c :: rest) then some 0
    else (firstOccur sep (rest)).map (· + 1)

/-- Fuel-driven worker for `pySplitSub`; the fuel only bounds the number of
separator occurrences and is always supplied large enough. -/
def splitSubF (sep : List Char) : Nat → List Char → List (List Char)
  | 0, l => [l]
  | fuel + 1, l =>
    match firstOccur sep l with
    | none => [l]
    | some i => l.take i :: splitSubF sep fuel (l.drop (i + sep.length))

/-- Python `str.split(sep)` for a non-empty multi-character separator, as used
by `path.split("printer_data")` and `f.split('.log.')`.  (Python raises on an
empty separator; callers of this model always pass non-empty literals.) -/
def pySplitSub (sep l : List Char) : List (List Char) :=
  if sep.isEmpty then [l] else splitSubF sep (l.length + 1) l

/-- Fuel-driven worker for `pySplitWs`. -/
def splitWsF : Nat → List Char → List (List Char)
  | 0, _ => []
  | fuel + 1, l =>
    match l.dropWhile isPySpace with
    | [] => []
    | c :: rest =>
      (c :: rest.takeWhile (fun x => !isPySpace x)) ::
        splitWsF fuel (rest.dropWhile (fun x => !isPySpace x))

/-- Python `str.split()` with no argument: split on runs of whitespace,
discarding empty fields and outer whitespace. -/
def pySplitWs (l : List Char) : List (List Char) := splitWsF (l.length + 1) l

/-- Everything after the first occurrence of `sep` (identity when absent);
used only to state properties about filename suffixes. -/
def afterFirstSub (sep l : List Char) : List Char :=
  match firstOccur sep l with
  | some i => l.drop (i + sep.length)
  | none => l

/-- The literal marker `"printer_data"` from the script. -/
def basePathMarker : List Char := "printer_data".data

/-- Whether the marker occurs in the path: Python `"printer_data" in p`. -/
def hasMarker (p : List Char) : Bool := (firstOccur basePathMarker p).isSome

/-- Base-path derivation from `main` (steps 5/6 of the script):
`p.split("printer_data")[0] + "printer_data/"` when the marker occurs in `p`,
otherwise `p` unchanged. -/
def derive_base (p : List Char) : List Char :=
  if hasMarker p then
    (pySplitSub basePathMarker p).headD [] ++ basePathMarker ++ ['/']
  else p

/-- Numeric value of a decimal digit character. -/
def digitVal (c : Char) : Nat := c.toNat - 48

/-- CPython `_strptime` directive `%m`: the regex alternation
`1[0-2]|0[1-9]|[1-9]`, returning the month value and the unconsumed rest. -/
def parseMonthNum : List Char → Option (Nat × List Char)
  | '1' :: c :: rest =>
    if c = '0' || c = '1' || c = '2' then some (10 + digitVal c, rest)
    else some (1, c :: rest)
  | '0' :: c :: rest =>
    if c.isDigit && c != '0' then some (digitVal c, rest) else none
  | c :: rest =>
    if c.isDigit && c != '0' then some (digitVal c, rest) else none
  | [] => none

/-- CPython `_strptime` directive `%d`: the regex alternation
`3[01]|[12]\d|0[1-9]|[1-9]`. -/
def parseDayNum : List Char → Option (Nat × List Char)
  | '3' :: c :: rest =>
    if c = '0' || c = '1' then some (30 + digitVal c, rest) else some (3, c :: rest)
  | '1' :: c :: rest =>
    if c.isDigit then some (10 + digitVal c, rest) else some (1, c :: rest)
  | '2' :: c :: rest =>
    if c.isDigit then some (20 + digitVal c, rest) else some (2, c :: rest)
  | '0' :: c :: rest =>
    if c.isDigit && c != '0' then some (digitVal c, rest) else none
  | c :: rest =>
    if c.isDigit && c != '0' then some (digitVal c, rest) else none
  | [] => none

/-- Proleptic-Gregorian leap-year rule used by `datetime`. -/
def isLeap (y : Nat) : Bool := (y % 4 = 0 && y % 100 != 0) || y % 400 = 0

/-- Length of a month as validated by `datetime.date`. -/
def daysInMonth (y m : Nat) : Nat :=
  if m = 2 then (if isLeap y then 29 else 28)
  else if m = 4 || m = 6 || m = 9 || m = 11 then 30
  else 31

/-- `datetime.strptime(s, "%Y-%m-%d")`: `%Y` is four digits, `%m`/`%d` as
above, the whole string must be consumed, and `datetime` validates
`1 <= year` and the day against the month length (else `ValueError`,
modelled as `none`). -/
def strptimeYmd (l : List Char) : Option (Nat × Nat × Nat) :=
  match l with
  | a :: b :: c :: d :: '-' :: rest =>
    if a.isDigit && b.isDigit && c.isDigit && d.isDigit then
      let y := ((digitVal a * 10 + digitVal b) * 10 + digitVal c) * 10 + digitVal d
      match parseMonthNum rest with
      | some (m, '-' :: rest2) =>
        match parseDayNum rest2 with
        | some (dd, []) =>
          if 1 ≤ y ∧ dd ≤ daysInMonth y m then some (y, m, dd) else none
        | _ => none
      | _ => none
    else none
  | _ => none

/-- The last fifteen characters of a filename matching
`\.log\.\d{4}-\d{2}-\d{2}` exactly. -/
def dateTail15 : List Char → Bool
  | '.' :: 'l' :: 'o' :: 'g' :: '.' :: a :: b :: c :: d :: '-' :: e :: f :: '-' :: g :: h :: [] =>
    a.isDigit && b.isDigit && c.isDigit && d.isDigit && e.isDigit && f.isDigit &&
      g.isDigit && h.isDigit
  | _ => false

/-- Match of `^.*\.log\.\d{4}-\d{2}-\d{2}$` at the start of `s` with the match
required to reach the anchor: `.*` takes everything except newlines up to a
fifteen-character dated tail. -/
def reCoreMatch (s : List Char) : Bool :=
  decide (15 ≤ s.length) && dateTail15 (s.drop (s.length - 15)) &&
    (s.take (s.length - 15)).all (fun c => c != '\n')

/-- `re.match(r'^.*\.log\.\d{4}-\d{2}-\d{2}$', s)` being truthy: the `$`
anchor also matches just before one trailing newline. -/
def matchesLogPattern (s : List Char) : Bool :=
  reCoreMatch s || (s.getLast? == some '\n' && reCoreMatch s.dropLast)

/-- The sort key computed inside `get_newest_log`:
`datetime.strptime(f.split('.log.')[1], "%Y-%m-%d")`; `none` models any
raised `IndexError`/`ValueError` (caught by the `try` around the sort). -/
def logDateKey (f : List Char) : Option (Nat × Nat × Nat) :=
  ((pySplitSub ".log.".data f)[1]?).bind strptimeYmd

/-- Order-embedding of a parsed date into `Nat` (months and days are below
100, so this is exactly the lexicographic `datetime` order on valid keys). -/
def encKey : Option (Nat × Nat × Nat) → Nat
  | none => 0
  | some (y, m, d) => (y * 100 + m) * 100 + d

/-- The filter of `get_newest_log`: filenames starting with the prefix and
matching the rotation regex. -/
def filteredFiles (all_files : List (List Char)) (log_pref : List Char) : List (List Char) :=
  all_files.filter fun f => log_pref.isPrefixOf f && matchesLogPattern f

/-- Whether `get_newest_log` hits its `except` branch (some sort key raises):
the list of candidates is non-empty and not every key parses. -/
def gnlParseFails (all_files : List (List Char)) (log_pref : List Char) : Bool :=
  !(filteredFiles all_files log_pref).isEmpty &&
    !((filteredFiles all_files log_pref).map logDateKey).all Option.isSome

/-- `get_newest_log(log_dir, log_prefix)` over the directory listing.

The source filters, returns `None` on an empty candidate list, sorts by the
parsed date descending (`reverse=True`, CPython's stable sort, all keys
computed up front so one bad key aborts the whole sort into the `except`
branch returning `None`), and returns element `0`.  A stable descending sort
followed by taking the head is embedded as Mathlib's stable `insertionSort`
with the reflexive relation "left key is at least right key"; the sorted
stable permutation is unique, so this agrees with CPython's sort. -/
def get_newest_log (all_files : List (List Char)) (log_pref : List Char) :
    Option (List Char) :=
  if (filteredFiles all_files log_pref).isEmpty then none
  else if ((filteredFiles all_files log_pref).map logDateKey).all Option.isSome then
    ((filteredFiles all_files log_pref).insertionSort
      fun a b => encKey (logDateKey b) ≤ encKey (logDateKey a)).head?
  else none

/-- Python exceptions that the script can raise, with the payload used by
`str(e)` in the top-level handler. -/
inductive PyErr
  | fileNotFound (msg : List Char)
  | valueError (msg : List Char)
  | indexError
  | ioError (msg : List Char)
deriving DecidableEq

/-- `str(e)` as printed by `status_message(str(e), success=False)`. -/
def PyErr.str : PyErr → List Char
  | .fileNotFound m => m
  | .valueError m => m
  | .indexError => "list index out of range".data
  | .ioError m => m

/-- Console lines, tagged by the printing helper that produced them. -/
inductive Msg
  | step (s : List Char)
  | ok (s : List Char)
  | fail (s : List Char)
  | warn (s : List Char)
  | note (s : List Char)
deriving DecidableEq

/-- Outcome of `subprocess.run(argv, ...)`: the executable may be absent
(Python raises `FileNotFoundError`) or run to completion with some exit code
and captured stdout; the script never inspects the exit code. -/
inductive CmdResult
  | missing
  | ran (exitCode : Nat) (out : List Char)

/-- Whether the executable was found and ran (with any exit status). -/
def CmdResult.isRan : CmdResult → Bool
  | .missing => false
  | .ran _ _ => true

/-- The `str(e)` of the `FileNotFoundError` raised by `subprocess.run` for a
missing executable. -/
def execMissingMsg (name : List Char) : List Char :=
  "[Errno 2] No such file or directory: ".data ++ [Char.ofNat 39] ++ name ++ [Char.ofNat 39]

/-- Environment of oracles for the file system, external commands and the
clock.  Reads of files whose existence was just checked are modelled as
total; fallible operations (`shutil.copy`, `shutil.copytree`, `zipf.write`)
return `some e` to model a raised exception. -/
structure Env where
  pathExists : List Char → Bool
  readLines : List Char → List (List Char)
  readFirstLine : List Char → List Char
  listdir : List Char → List (List Char)
  copy : List Char → List Char → Option PyErr
  copytree : List Char → List Char → Option PyErr
  cfgTreeRel : List (List Char)
  run : List (List Char) → CmdResult
  zipWrite : List Char → Option PyErr
  timeAt : Nat → List Char

/-- Contents of the archive at `/tmp/klipper_support.zip`: the entry names
written so far and whether the `os.walk` loop completed without raising. -/
structure ZipState where
  entries : List (List Char)
  finished : Bool
deriving DecidableEq

/-- Observable state of one run: console lines, the scratch directory's
files (paths relative to `/tmp/klipper_support`, in creation order), whether
the scratch directory was reset, the archive at the fixed temporary path and
the final copied archive path. -/
structure St where
  msgs : List Msg
  scratch : List (List Char)
  scratchReset : Bool
  tmpZip : Option ZipState
  finalZip : Option (List Char)
deriving DecidableEq

/-- The empty starting state of a run. -/
def St.init : St := ⟨[], [], false, none, none⟩

/-- Append one console line. -/
def emit (m : Msg) (st : St) : St := { st with msgs := st.msgs ++ [m] }

/-- Whether a console line is a `[FAIL]` line. -/
def isFailMsg : Msg → Bool
  | .fail _ => true
  | _ => false

/-- Number of `[FAIL]` lines printed. -/
def countFail (ms : List Msg) : Nat := (ms.filter isFailMsg).length

/-- The well-known service file path. -/
def servicePath : List Char := "/etc/systemd/system/klipper.service".data

/-- The scratch directory path. -/
def supportDir : List Char := "/tmp/klipper_support".data

/-- The fixed temporary archive path. -/
def zipFilePath : List Char := "/tmp/klipper_support.zip".data

/-- `os.path.dirname` for POSIX paths. -/
def dirname (p : List Char) : List Char :=
  if p.contains '/' then
    let head := (p.reverse.dropWhile (fun c => !(c = '/'))).reverse
    if head.all (fun c => c = '/') then head
    else (head.reverse.dropWhile (fun c => c = '/')).reverse
  else []

/-- `os.path.join` for one relative or absolute component. -/
def joinPath (a b : List Char) : List Char :=
  match b with
  | '/' :: _ => b
  | _ =>
    if a = [] then a ++ b
    else if a.getLast? = some '/' then a ++ b
    else a ++ '/' :: b

/-- Lines 81–84: select the first `EnvironmentFile`-prefixed line of the
service file and return `line.split('=')[1].strip()`; `ValueError` when no
line matches, `IndexError` when the line has no `'='`. -/
def extractEnvPath (lines : List (List Char)) : Except PyErr (List Char) :=
  match lines.filter (fun l => "EnvironmentFile".data.isPrefixOf l) with
  | [] => .error (.valueError "EnvironmentFile not found in klipper.service.".data)
  | l0 :: _ =>
    match (pySplitOnChar '=' l0)[1]? with
    | none => .error .indexError
    | some v => .ok (pyStripWsBoth v)

/-- Lines 97–99 applied to the already-stripped first line of the
environment file: `line.split('=')[1].strip('"').split()` and the positional
accesses `[1]` and `[5]` (each raising `IndexError` when out of range). -/
def extractArgsPaths (line : List Char) : Except PyErr (List Char × List Char) :=
  match (pySplitOnChar '=' line)[1]? with
  | none => .error .indexError
  | some v =>
    match (pySplitWs (pyStripChar '"' v))[1]? with
    | none => .error .indexError
    | some cfg =>
      match (pySplitWs (pyStripChar '"' v))[5]? with
      | none => .error .indexError
      | some lg => .ok (cfg, lg)

/-- Lines 96–99: `f.readline().strip()` followed by the positional
extraction. -/
def envExtract (rawFirstLine : List Char) : Except PyErr (List Char × List Char) :=
  extractArgsPaths (pyStripWsBoth rawFirstLine)

/-- Steps 1–4 of `main` (lines 69–100): locate the service file, extract the
environment file path, check it exists, and extract the two positional
paths from its first line. -/
def stepLocate (env : Env) (st : St) : St × Except PyErr (List Char × List Char) :=
  let st := emit (.step "Checking klipper.service".data) st
  if env.pathExists servicePath then
    let st := emit (.ok "klipper.service found".data) st
    let st := emit (.step "Reading klipper.service content".data) st
    match extractEnvPath (env.readLines servicePath) with
    | .error e => (st, .error e)
    | .ok envFilePath =>
      let st := emit (.ok "EnvironmentFile path extracted".data) st
      let st := emit (.step "Checking EnvironmentFile existence".data) st
      if env.pathExists envFilePath then
        let st := emit (.ok "EnvironmentFile found".data) st
        let st := emit (.step "Reading EnvironmentFile content".data) st
        match envExtract (env.readFirstLine envFilePath) with
        | .error e => (st, .error e)
        | .ok paths =>
          (emit (.ok "Paths extracted from EnvironmentFile".data) st, .ok paths)
      else (st, .error (.fileNotFound (envFilePath ++ " does not exist.".data)))
  else (st, .error (.fileNotFound (servicePath ++ " does not exist.".data)))

/-- Step 5 (lines 102–109): base path for `printer.cfg`, warning on a
non-standard layout. -/
def stepBaseCfg (p : List Char) (st : St) : St × List Char :=
  let st := emit (.step "Determining base_path for printer.cfg".data) st
  let st :=
    if hasMarker p then st
    else emit (.warn ("Warning: Non-standard installation for printer.cfg at ".data ++ p)) st
  (emit (.ok ("Printer config path: ".data ++ derive_base p)) st, derive_base p)

/-- Step 6 (lines 111–118): base path for the log file. -/
def stepBaseLog (p : List Char) (st : St) : St × List Char :=
  let st := emit (.step "Determining base_path for log file".data) st
  let st :=
    if hasMarker p then st
    else emit (.warn ("Warning: Non-standard installation for log file at ".data ++ p)) st
  (emit (.ok ("Log file path: ".data ++ derive_base p)) st, derive_base p)

/-- Step 7 (lines 120–124): `ensure_empty_dir` on the scratch directory. -/
def stepScratch (st : St) : St :=
  let st := emit (.step "Preparing support directory".data) st
  let st := { st with scratch := [], scratchReset := true }
  emit (.ok "Support directory prepared".data) st

/-- One iteration of the `files_to_copy` loop (lines 131–136): copy the named
file into the scratch directory when it exists; a raised copy error aborts. -/
def copyIfPresent (env : Env) (srcDir file : List Char) (st : St) : St × Option PyErr :=
  if env.pathExists (joinPath srcDir file) then
    match env.copy (joinPath srcDir file) (joinPath supportDir file) with
    | some e => (st, some e)
    | none =>
      (emit (.ok ("Copied ".data ++ file)) { st with scratch := st.scratch ++ [file] }, none)
  else (st, none)

/-- The newest-rotation part of lines 138–143, including the parse-error
print from inside `get_newest_log`. -/
def stepLogsNewest (env : Env) (logDir : List Char) (st : St) : St × Option PyErr :=
  let st :=
    if gnlParseFails (env.listdir logDir) "klippy.log".data then
      emit (.note "Error while parsing log filenames".data) st
    else st
  match get_newest_log (env.listdir logDir) "klippy.log".data with
  | some newest =>
    match env.copy (joinPath logDir newest) (joinPath supportDir newest) with
    | some e => (st, some e)
    | none =>
      (emit (.ok ("Copied last rolled-over log: ".data ++ newest))
        { st with scratch := st.scratch ++ [newest] }, none)
  | none => (emit (.ok "No archived klippy log found.".data) st, none)

/-- Lines 128–143: the marker branch of selective log collection. -/
def stepLogsMarker (env : Env) (logDir : List Char) (st : St) : St × Option PyErr :=
  let r1 := copyIfPresent env logDir "klippy.log".data st
  match r1.2 with
  | some e => (r1.1, some e)
  | none =>
    let r2 := copyIfPresent env logDir "moonraker.log".data r1.1
    match r2.2 with
    | some e => (r2.1, some e)
    | none => stepLogsNewest env logDir r2.1

/-- Lines 126–147: selective log collection from the log directory when the
log path is under the marker, otherwise a direct copy renamed to
`klippy.log`. -/
def stepLogs (env : Env) (logFilePath : List Char) (st : St) : St × Option PyErr :=
  let st := emit (.step "Copying selective logs".data) st
  let res :=
    if hasMarker logFilePath then stepLogsMarker env (dirname logFilePath) st
    else
      match env.copy logFilePath (joinPath supportDir "klippy.log".data) with
      | some e => (st, some e)
      | none => ({ st with scratch := st.scratch ++ ["klippy.log".data] }, none)
  match res.2 with
  | some e => (res.1, some e)
  | none => (emit (.ok "Selective logs copied".data) res.1, none)

/-- Lines 149–155: copy the config directory tree (or the single file). -/
def stepConfig (env : Env) (printerCfgPath : List Char) (st : St) : St × Option PyErr :=
  let st := emit (.step "Copying printer.cfg".data) st
  if hasMarker printerCfgPath then
    match env.copytree (dirname printerCfgPath) (joinPath supportDir "config".data) with
    | some e => (st, some e)
    | none =>
      let st := { st with scratch := st.scratch ++ env.cfgTreeRel.map (fun r => "config/".data ++ r) }
      (emit (.ok "Printer.cfg copied".data) st, none)
  else
    match env.copy printerCfgPath (joinPath supportDir "printer.cfg".data) with
    | some e => (st, some e)
    | none =>
      (emit (.ok "Printer.cfg copied".data)
        { st with scratch := st.scratch ++ ["printer.cfg".data] }, none)

/-- A `subprocess.run(argv, stdout=f, text=True)` call: raises only when the
executable is missing; a non-zero exit status is ignored. -/
def runCmd (env : Env) (argv : List (List Char)) : Option PyErr :=
  match env.run argv with
  | .missing => some (.fileNotFound (execMissingMsg (argv.headD [])))
  | .ran _ _ => none

/-- Lines 157–180: the three report files.  Each `open(..., 'w')` creates its
file before the commands run, so a missing executable leaves the current
report file behind (possibly empty) and aborts the rest. -/
def stepReports (env : Env) (st : St) : St × Option PyErr :=
  let st := emit (.step "Collecting OS information".data) st
  let st := { st with scratch := st.scratch ++ ["OS_Information.txt".data] }
  match runCmd env ["uname".data, "-a".data] with
  | some e => (st, some e)
  | none =>
  match runCmd env ["cat".data, "/etc/os-release".data] with
  | some e => (st, some e)
  | none =>
  let st := emit (.ok "OS information collected".data) st
  let st := emit (.step "Collecting network information".data) st
  let st := { st with scratch := st.scratch ++ ["Network_Information.txt".data] }
  match runCmd env ["ip".data, "-details".data, "-s".data, "link".data, "show".data] with
  | some e => (st, some e)
  | none =>
  let st := emit (.ok "Network information collected".data) st
  let st := emit (.step "Collecting dmesg information".data) st
  let st := { st with scratch := st.scratch ++ ["dmesg.txt".data] }
  match runCmd env ["sudo".data, "dmesg".data] with
  | some e => (st, some e)
  | none => (emit (.ok "dmesg information collected".data) st, none)

/-- The order in which `os.walk(support_dir)` yields the scratch files: the
files directly in the scratch root first (in creation order, modelling the
directory listing), then the `config/` subtree. -/
def walkFiles (scratch : List (List Char)) : List (List Char) :=
  scratch.filter (fun p => !"config/".data.isPrefixOf p) ++
    scratch.filter (fun p => "config/".data.isPrefixOf p)

/-- The archive loop of lines 186–192: for each file compute
`arcname + "_" + time.strftime("%Y%m%d_%H%M%S")` (one fresh `strftime` call
per entry, numbered by the call counter `n`) and write it; a raised write
error stops the loop.  Returns the entries written, the error if any, and
the new call counter. -/
def zipLoop (env : Env) : List (List Char) → Nat → List (List Char) × Option PyErr × Nat
  | [], n => ([], none, n)
  | f :: rest, n =>
    let arc := f ++ '_' :: env.timeAt n
    match env.zipWrite f with
    | some e => ([], some e, n + 1)
    | none =>
      let r := zipLoop env rest (n + 1)
      (arc :: r.1, r.2.1, r.2.2)

/-- Lines 182–205: compress the scratch directory into the fixed temporary
archive (the `with` block closes the archive even when an entry write
raises, leaving the entries written so far) and copy it to its final
timestamped destination. -/
def stepPack (env : Env) (basePath : List Char) (st : St) : St × Option PyErr :=
  let st := emit (.step "Compressing support folder".data) st
  let r := zipLoop env (walkFiles st.scratch) 0
  let st := { st with tmpZip := some ⟨r.1, r.2.1.isNone⟩ }
  match r.2.1 with
  | some e => (st, some e)
  | none =>
  let st := emit (.ok "Support folder compressed".data) st
  let ts := env.timeAt r.2.2
  if hasMarker basePath then
    let finalPath := joinPath (joinPath basePath "logs".data)
      ("klipper_support_".data ++ ts ++ ".zip".data)
    match env.copy zipFilePath finalPath with
    | some e => (st, some e)
    | none =>
      let st := { st with finalZip := some finalPath }
      let st := emit (.note ("Support ZIP created: ".data ++ finalPath)) st
      (emit (.note "Get the file in the logs section of the webinterface. Refresh might be needed!".data) st, none)
  else
    let finalPath := "/tmp/klipper_support_".data ++ ts ++ ".zip".data
    match env.copy zipFilePath finalPath with
    | some e => (st, some e)
    | none =>
      let st := { st with finalZip := some finalPath }
      (emit (.note ("Support ZIP created: ".data ++ finalPath)) st, none)

/-- Sequence two stages: a raised error short-circuits (the Python control
flow of one statement after another inside the `try`). -/
def andThen (r : St × Option PyErr) (f : St → St × Option PyErr) : St × Option PyErr :=
  match r.2 with
  | some e => (r.1, some e)
  | none => f r.1

/-- The body of `main` inside the `try` (lines 68–205), threading the state
and stopping at the first raised error. -/
def mainBody (env : Env) : St × Option PyErr :=
  let rL := stepLocate env St.init
  match rL.2 with
  | .error e => (rL.1, some e)
  | .ok paths =>
    andThen (stepLogs env paths.2
        (stepScratch (stepBaseLog paths.2 (stepBaseCfg paths.1 rL.1).1).1))
      (fun st1 => andThen (stepConfig env paths.1 st1)
        (fun st2 => andThen (stepReports env st2)
          (fun st3 => stepPack env (stepBaseCfg paths.1 rL.1).2 st3)))

/-- `main()` with its top-level handler (lines 207–208): any raised error is
printed once as a `[FAIL]` line; the interpreter then exits with status 0
either way. -/
def mainRun (env : Env) : St × Nat :=
  let r := mainBody env
  match r.2 with
  | none => (r.1, 0)
  | some e => (emit (.fail (PyErr.str e)) r.1, 0)

/-- A character that is not whitespace, not a double quote and not `'='`:
tokens made of such characters pass unchanged through the extraction
pipeline. -/
def goodChar (c : Char) : Bool := !isPySpace c && c != '"' && c != '='

/-- A non-empty token of good characters (used to state well-formedness of
constructed service/environment lines). -/
def goodTok (t : List Char) : Bool := !t.isEmpty && t.all goodChar

/-- Join tokens with single spaces (used to construct well-formed quoted
values in theorem statements). -/
def joinSpace : List (List Char) → List Char
  | [] => []
  | [t] => t
  | t :: ts => t ++ ' ' :: joinSpace ts

/-- The spec's description of the Packager's entry naming: "the file's path
relative to the scratch root, with a timestamp string (`YYYYMMDD_HHMMSS`,
recomputed at time of adding each entry) appended as a literal suffix to the
full relative name".  Stated from the spec's words to compare with
`zipLoop`. -/
def specEntryNames (env : Env) : List (List Char) → Nat → List (List Char)
  | [], _ => []
  | f :: rest, n => (f ++ '_' :: env.timeAt n) :: specEntryNames env rest (n + 1)

/-- The first line used by the concrete environments below:
`KLIPPY_ARGS="-I /tmp/a -c /tmp/b -l /tmp/c"` (neither extracted path
contains the marker, so logs and config are copied directly). -/
def envLineW : List Char := "KLIPPY_ARGS=\"-I /tmp/a -c /tmp/b -l /tmp/c\"".data

/-- A fully healthy concrete environment: service and environment files
exist with well-formed contents, all copies and archive writes succeed, all
commands run, and the clock is constant. -/
def envBase : Env :=
  { pathExists := fun p => p == servicePath || p == "/tmp/env".data
  , readLines := fun _ => ["EnvironmentFile=/tmp/env".data]
  , readFirstLine := fun _ => envLineW
  , listdir := fun _ => []
  , copy := fun _ _ => none
  , copytree := fun _ _ => none
  , cfgTreeRel := []
  , run := fun _ => .ran 0 []
  , zipWrite := fun _ => none
  , timeAt := fun _ => "20240101_000000".data }

/-- `envBase` with the `ip` executable absent: `subprocess.run` raises. -/
def envIpMissing : Env :=
  { envBase with
    run := fun argv => if argv.headD [] == "ip".data then .missing else .ran 0 [] }

/-- `envBase` with the archive write of the second walked file raising. -/
def envZipFails : Env :=
  { envBase with
    zipWrite := fun f =>
      if f == "printer.cfg".data then some (.ioError "disk full".data) else none }

/-- `envBase` with no file existing at all: the very first check raises. -/
def envNothing : Env := { envBase with pathExists := fun _ => false }

/-- `envBase` with a log directory listing no file of which matches the
rotation pattern. -/
def envNoRotation : Env := { envBase with listdir := fun _ => ["random.txt".data] }

/-- `envBase` with an environment file whose first line has a quoted value
of only two whitespace-separated tokens. -/
def envShortLine : Env :=
  { envBase with readFirstLine := fun _ => "KLIPPY_ARGS=\"-I /tmp/a\"".data }

/-! ### Generic helpers about `List.isPrefixOf`, `take` and `drop` -/

theorem isPrefixOf_eq_take :
    ∀ (a l : List Char), a.isPrefixOf l = true ↔ l.take a.length = a
  | [], l => by simp [List.isPrefixOf]
  | c :: cs, [] => by simp [List.isPrefixOf]
  | c :: cs, b :: bs => by
    simp [List.isPrefixOf, isPrefixOf_eq_take cs bs, eq_comm (a := b) (b := c), and_comm]

theorem isPrefixOf_append (a t : List Char) : a.isPrefixOf (a ++ t) = true := by
  rw [isPrefixOf_eq_take]
  exact List.take_left a t

theorem isPrefixOf_len_le {a l : List Char} (h : a.isPrefixOf l = true) :
    a.length ≤ l.length := by
  rw [isPrefixOf_eq_take] at h
  have := congrArg List.length h
  simp [List.length_take] at this
  omega

/-! ### Characterization of `firstOccur` -/

theorem firstOccur_isPrefixOf {sep : List Char} :
    ∀ {l : List Char} {i : Nat}, firstOccur sep l = some i →
      sep.isPrefixOf (l.drop i) = true := by
  intro l
  induction l with
  | nil =>
    intro i h
    rw [show firstOccur sep [] =
      (if sep.isPrefixOf ([] : List Char) then some 0 else none) from rfl] at h
    split at h
    next hpre => cases h; rw [List.drop_nil]; exact hpre
    next => cases h
  | cons c rest ih =>
    intro i h
    rw [show firstOccur sep (c :: rest) =
      (if sep.isPrefixOf (c :: rest) then some 0
       else (firstOccur sep rest).map (· + 1)) from rfl] at h
    split at h
    next hpre => cases h; rw [List.drop_zero]; exact hpre
    next =>
      cases hr : firstOccur sep rest with
      | none => rw [hr] at h; cases h
      | some j =>
        rw [hr] at h
        cases h
        rw [List.drop_succ_cons]
        exact ih hr

theorem firstOccur_min {sep : List Char} :
    ∀ {l : List Char} {i : Nat}, firstOccur sep l = some i →
      ∀ j, j < i → sep.isPrefixOf (l.drop j) = false := by
  intro l
  induction l with
  | nil =>
    intro i h j hj
    rw [show firstOccur sep [] =
      (if sep.isPrefixOf ([] : List Char) then some 0 else none) from rfl] at h
    split at h
    next => cases h; omega
    next => cases h
  | cons c rest ih =>
    intro i h j hj
    rw [show firstOccur sep (c :: rest) =
      (if sep.isPrefixOf (c :: rest) then some 0
       else (firstOccur sep rest).map (· + 1)) from rfl] at h
    split at h
    next => cases h; omega
    next hnpre =>
      cases hr : firstOccur sep rest with
      | none => rw [hr] at h; cases h
      | some k =>
        rw [hr] at h
        simp only [Option.map_some', Option.some.injEq] at h
        subst h
        cases j with
        | zero =>
          rw [List.drop_zero]
          exact Bool.eq_false_iff.mpr (fun hx => hnpre (by rw [hx]))
        | succ j' =>
          rw [List.drop_succ_cons]
          exact ih hr j' (by omega)

theorem firstOccur_intro {sep : List Char} :
    ∀ {l : List Char} {i : Nat}, sep.isPrefixOf (l.drop i) = true →
      (∀ j, j < i → sep.isPrefixOf (l.drop j) = false) → firstOccur sep l = some i := by
  intro l
  induction l with
  | nil =>
    intro i hp hmin
    cases i with
    | zero =>
      rw [List.drop_nil] at hp
      rw [show firstOccur sep [] =
        (if sep.isPrefixOf ([] : List Char) then some 0 else none) from rfl, if_pos hp]
    | succ i' =>
      rw [List.drop_nil] at hp
      have h0 := hmin 0 (by omega)
      rw [List.drop_nil, hp] at h0
      cases h0
  | cons c rest ih =>
    intro i hp hmin
    cases i with
    | zero =>
      rw [List.drop_zero] at hp
      rw [show firstOccur sep (c :: rest) =
        (if sep.isPrefixOf (c :: rest) then some 0
         else (firstOccur sep rest).map (· + 1)) from rfl, if_pos hp]
    | succ i' =>
      have h0 : sep.isPrefixOf (c :: rest) = false := by
        have := hmin 0 (by omega)
        rwa [List.drop_zero] at this
      rw [show firstOccur sep (c :: rest) =
        (if sep.isPrefixOf (c :: rest) then some 0
         else (firstOccur sep rest).map (· + 1)) from rfl, h0]
      have hr : firstOccur sep rest = some i' := by
        apply ih
        · rw [List.drop_succ_cons] at hp; exact hp
        · intro j hj
          have := hmin (j + 1) (by omega)
          rwa [List.drop_succ_cons] at this
      rw [hr]
      rfl

theorem firstOccur_bound {sep : List Char} (hsep : sep ≠ []) :
    ∀ {l : List Char} {i : Nat}, firstOccur sep l = some i →
      i + sep.length ≤ l.length := by
  intro l i h
  have hp := firstOccur_isPrefixOf h
  have hle := isPrefixOf_len_le hp
  rw [List.length_drop] at hle
  rcases le_or_lt i l.length with hi | hi
  · omega
  · rw [List.drop_eq_nil_of_le (by omega)] at hp
    cases sep with
    | nil => exact absurd rfl hsep
    | cons a as => simp [List.isPrefixOf] at hp

/-- Head of the Python split: `p.split(sep)[0]` is everything before the
first occurrence of `sep`. -/
theorem pySplitSub_head {sep l : List Char} {i : Nat} (hsep : sep ≠ [])
    (h : firstOccur sep l = some i) : (pySplitSub sep l).headD [] = l.take i := by
  have hne : sep.isEmpty = false := by cases sep <;> simp_all
  simp only [pySplitSub, hne, Bool.false_eq_true, if_false, splitSubF, h]
  rfl

/-- Stability of the first occurrence under replacing everything after it:
in `p.take i ++ sep ++ t` the first occurrence of `sep` is still at `i`. -/
theorem firstOccur_stable {sep p t : List Char} {i : Nat} (hsep : sep ≠ [])
    (h : firstOccur sep p = some i) :
    firstOccur sep (p.take i ++ (sep ++ t)) = some i := by
  have hb := firstOccur_bound hsep h
  have hlen : (p.take i).length = i := by
    rw [List.length_take]; omega
  apply firstOccur_intro
  · rw [List.drop_left' hlen]
    exact isPrefixOf_append sep t
  · intro j hj
    have hd : (p.take i ++ (sep ++ t)).drop j = (p.take i).drop j ++ (sep ++ t) :=
      List.drop_append_of_le_length (by omega)
    rw [hd]
    -- an occurrence at `j` here would be an occurrence at `j` in `p`
    have hdp : p.drop j = (p.take i).drop j ++ (sep ++ p.drop (i + sep.length)) := by
      conv_lhs => rw [← List.take_append_drop i p]
      rw [List.drop_append_of_le_length (by omega)]
      congr 1
      have hpref := firstOccur_isPrefixOf h
      rw [isPrefixOf_eq_take] at hpref
      conv_lhs => rw [← List.take_append_drop sep.length (p.drop i)]
      rw [hpref, List.drop_drop]
    have hmin := firstOccur_min h j hj
    rw [hdp] at hmin
    by_contra hcon
    simp only [Bool.not_eq_false] at hcon
    have hXlen : sep.length ≤ ((p.take i).drop j ++ sep).length := by
      rw [List.length_append]
      omega
    have hp2 : sep.isPrefixOf ((p.take i).drop j ++ (sep ++ p.drop (i + sep.length))) = true := by
      rw [isPrefixOf_eq_take, ← List.append_assoc,
        List.take_append_of_le_length hXlen]
      rw [isPrefixOf_eq_take, ← List.append_assoc,
        List.take_append_of_le_length hXlen] at hcon
      exact hcon
    rw [hp2] at hmin
    cases hmin

/-- C3 helper: the derivation at a path containing the marker. -/
theorem derive_base_of_marker {p : List Char} {i : Nat}
    (h : firstOccur basePathMarker p = some i) :
    derive_base p = p.take i ++ (basePathMarker ++ ['/']) := by
  have hsep : basePathMarker ≠ [] := by decide
  have hm : hasMarker p = true := by rw [hasMarker, h]; rfl
  rw [derive_base, if_pos hm, pySplitSub_head hsep h, List.append_assoc]

/-- Idempotence of base-path derivation. -/
theorem derive_base_idem (p : List Char) : derive_base (derive_base p) = derive_base p := by
  have hsep : basePathMarker ≠ [] := by decide
  cases h : firstOccur basePathMarker p with
  | none =>
    simp only [derive_base, hasMarker, h, Option.isSome_none, Bool.false_eq_true, if_false]
  | some i =>
    have hb := firstOccur_bound hsep h
    have hlen : (p.take i).length = i := by rw [List.length_take]; omega
    rw [derive_base_of_marker h]
    rw [derive_base_of_marker (firstOccur_stable hsep h)]
    rw [List.take_append_of_le_length (by omega), List.take_take,
      Nat.min_self]

/-! ### Lemmas about `pySplitOnChar`, stripping and whitespace splitting -/

theorem pySplitOnChar_no_sep {sep : Char} :
    ∀ {l : List Char}, (∀ c ∈ l, c ≠ sep) → pySplitOnChar sep l = [l] := by
  intro l
  induction l with
  | nil => intro; rfl
  | cons a k ih =>
    intro h
    have ha : a ≠ sep := h a (by simp)
    simp only [pySplitOnChar, if_neg ha]
    rw [ih (fun c hc => h c (by simp [hc]))]

theorem pySplitOnChar_append {sep : Char} :
    ∀ {k : List Char} (rest : List Char), (∀ c ∈ k, c ≠ sep) →
      pySplitOnChar sep (k ++ sep :: rest) = k :: pySplitOnChar sep rest := by
  intro k
  induction k with
  | nil =>
    intro rest _
    simp [pySplitOnChar]
  | cons a k ih =>
    intro rest h
    have ha : a ≠ sep := h a (by simp)
    simp only [List.cons_append, pySplitOnChar, if_neg ha, List.append_eq]
    rw [ih rest (fun c hc => h c (by simp [hc]))]

theorem dropWhile_eq_self {p : Char → Bool} :
    ∀ {l : List Char}, (∀ c ∈ l, p c = false) → l.dropWhile p = l := by
  intro l
  cases l with
  | nil => intro; rfl
  | cons a k =>
    intro h
    rw [List.dropWhile_cons, if_neg (by simp [h a (by simp)])]

theorem takeWhile_eq_self {p : Char → Bool} :
    ∀ {l : List Char}, (∀ c ∈ l, p c = true) → l.takeWhile p = l := by
  intro l
  induction l with
  | nil => intro; rfl
  | cons a k ih =>
    intro h
    rw [List.takeWhile_cons, if_pos (h a (by simp))]
    rw [ih (fun c hc => h c (by simp [hc]))]

theorem dropWhile_eq_nil {p : Char → Bool} :
    ∀ {l : List Char}, (∀ c ∈ l, p c = true) → l.dropWhile p = [] := by
  intro l
  induction l with
  | nil => intro; rfl
  | cons a k ih =>
    intro h
    rw [List.dropWhile_cons, if_pos (h a (by simp))]
    exact ih (fun c hc => h c (by simp [hc]))

theorem pyStripWsBoth_eq_self {l : List Char} (h : ∀ c ∈ l, isPySpace c = false) :
    pyStripWsBoth l = l := by
  unfold pyStripWsBoth
  rw [dropWhile_eq_self h,
    dropWhile_eq_self (fun c hc => h c (List.mem_reverse.mp hc)),
    List.reverse_reverse]

theorem pyStripWsBoth_ws_append {ws m : List Char} (h : ∀ c ∈ ws, isPySpace c = true) :
    pyStripWsBoth (ws ++ m) = pyStripWsBoth m := by
  unfold pyStripWsBoth
  rw [List.dropWhile_append_of_pos h]

/-- Stripping whitespace is the identity on a line that starts and ends with
a non-whitespace character. -/
theorem pyStripWsBoth_ends {c d : Char} {mid : List Char}
    (hc : isPySpace c = false) (hd : isPySpace d = false) :
    pyStripWsBoth (c :: (mid ++ [d])) = c :: (mid ++ [d]) := by
  unfold pyStripWsBoth
  rw [List.dropWhile_cons, if_neg (by simp [hc])]
  rw [show (c :: (mid ++ [d])).reverse = d :: (mid.reverse ++ [c]) by simp]
  rw [List.dropWhile_cons, if_neg (by simp [hd])]
  simp

theorem mem_of_pyStripWsBoth {c : Char} {l : List Char} (h : c ∈ pyStripWsBoth l) :
    c ∈ l := by
  unfold pyStripWsBoth at h
  rw [List.mem_reverse] at h
  have h1 := (List.dropWhile_sublist _).mem h
  rw [List.mem_reverse] at h1
  exact (List.dropWhile_sublist _).mem h1

theorem dropWhile_cons_of_false {p : Char → Bool} {a : Char} {l : List Char}
    (h : p a = false) : (a :: l).dropWhile p = a :: l := by
  rw [List.dropWhile_cons, if_neg (by simp [h])]

theorem dropWhile_cons_of_true {p : Char → Bool} {a : Char} {l : List Char}
    (h : p a = true) : (a :: l).dropWhile p = l.dropWhile p := by
  rw [List.dropWhile_cons, if_pos h]

/-- `strip('"')` removes exactly the wrapping quotes when the body is
non-empty and quote-free. -/
theorem pyStripChar_wrap {q : Char} {body : List Char} (hb : body ≠ [])
    (h : ∀ c ∈ body, c ≠ q) : pyStripChar q (q :: (body ++ [q])) = body := by
  unfold pyStripChar
  rw [dropWhile_cons_of_true (by simp)]
  cases body with
  | nil => exact absurd rfl hb
  | cons b bs =>
    rw [List.cons_append, dropWhile_cons_of_false (by simp [h b (by simp)])]
    rw [show (b :: (bs ++ [q])).reverse = q :: (b :: bs).reverse by simp]
    rw [dropWhile_cons_of_true (by simp)]
    obtain ⟨b', t, hrev⟩ : ∃ b' t, (b :: bs).reverse = b' :: t := by
      cases h' : (b :: bs).reverse with
      | nil => simp at h'
      | cons x y => exact ⟨x, y, rfl⟩
    have hb' : b' ∈ (b :: bs) := by
      rw [← List.mem_reverse, hrev]; simp
    rw [hrev, dropWhile_cons_of_false (by simp [h b' hb']), ← hrev,
      List.reverse_reverse]

/-- `strip('"')` with leading whitespace before the opening quote: only the
closing quote is removed. -/
theorem pyStripChar_ws_wrap {q w : Char} {ws body : List Char} (hw : w ≠ q)
    (hb : body ≠ []) (h : ∀ c ∈ body, c ≠ q) :
    pyStripChar q ((w :: ws) ++ (q :: body ++ [q])) = (w :: ws) ++ (q :: body) := by
  unfold pyStripChar
  rw [List.cons_append, dropWhile_cons_of_false (by simp [hw])]
  cases body with
  | nil => exact absurd rfl hb
  | cons b bs =>
    obtain ⟨b', t, hrev⟩ : ∃ b' t, (b :: bs).reverse = b' :: t := by
      cases h' : (b :: bs).reverse with
      | nil => simp at h'
      | cons x y => exact ⟨x, y, rfl⟩
    have hb' : b' ∈ (b :: bs) := by
      rw [← List.mem_reverse, hrev]; simp
    have hbt : (b' :: t).reverse = b :: bs := by
      rw [← hrev, List.reverse_reverse]
    have hsplit : (w :: (ws ++ (q :: (b :: bs) ++ [q]))).reverse
        = q :: (b' :: (t ++ (q :: (ws.reverse ++ [w])))) := by
      rw [← hbt]
      simp
    rw [hsplit, dropWhile_cons_of_true (by simp),
      dropWhile_cons_of_false (by simp [h b' hb'])]
    rw [show (b' :: (t ++ (q :: (ws.reverse ++ [w])))).reverse
        = (w :: ws) ++ (q :: ((b' :: t).reverse)) by simp]
    rw [hbt]



theorem splitWsF_nil : ∀ (f : Nat), splitWsF f [] = [] := by
  intro f
  cases f with
  | zero => rfl
  | succ g => rfl

theorem splitWsF_succ_nil {f : Nat} {l : List Char}
    (h : l.dropWhile isPySpace = []) : splitWsF (f + 1) l = [] := by
  rw [show splitWsF (f + 1) l =
    (match l.dropWhile isPySpace with
     | [] => []
     | c :: rest =>
       (c :: rest.takeWhile (fun x => !isPySpace x)) ::
         splitWsF f (rest.dropWhile (fun x => !isPySpace x))) from rfl, h]

theorem splitWsF_succ_cons {f : Nat} {l : List Char} {c : Char} {rest : List Char}
    (h : l.dropWhile isPySpace = c :: rest) :
    splitWsF (f + 1) l =
      (c :: rest.takeWhile (fun x => !isPySpace x)) ::
        splitWsF f (rest.dropWhile (fun x => !isPySpace x)) := by
  rw [show splitWsF (f + 1) l =
    (match l.dropWhile isPySpace with
     | [] => []
     | c :: rest =>
       (c :: rest.takeWhile (fun x => !isPySpace x)) ::
         splitWsF f (rest.dropWhile (fun x => !isPySpace x))) from rfl, h]

/-- `splitWsF` does not depend on the fuel nor on leading whitespace, as
long as the fuel exceeds the input length. -/
theorem splitWsF_congr :
    ∀ (f1 : Nat) {f2 : Nat} {l1 l2 : List Char},
      l1.dropWhile isPySpace = l2.dropWhile isPySpace →
      l1.length < f1 → l2.length < f2 → splitWsF f1 l1 = splitWsF f2 l2 := by
  intro f1
  induction f1 with
  | zero =>
    intro f2 l1 l2 _ h1 _
    omega
  | succ g ih =>
    intro f2 l1 l2 hdw h1 h2
    cases f2 with
    | zero => omega
    | succ g2 =>
      cases hd : l2.dropWhile isPySpace with
      | nil => rw [splitWsF_succ_nil (hdw.trans hd), splitWsF_succ_nil hd]
      | cons c rest =>
        have hlen2 : rest.length + 1 ≤ l2.length := by
          have := (List.dropWhile_sublist (l := l2) isPySpace).length_le
          rw [hd] at this
          simpa using this
        have hlen1 : rest.length + 1 ≤ l1.length := by
          have := (List.dropWhile_sublist (l := l1) isPySpace).length_le
          rw [hdw, hd] at this
          simpa using this
        have harg := (List.dropWhile_sublist (l := rest)
          (fun x => !isPySpace x)).length_le
        rw [splitWsF_succ_cons (hdw.trans hd), splitWsF_succ_cons hd]
        congr 1
        exact ih rfl (by omega) (by omega)

theorem pySplitWs_eq_fuel {f : Nat} {l : List Char} (h : l.length < f) :
    splitWsF f l = pySplitWs l :=
  splitWsF_congr f rfl h (by omega)

theorem pySplitWs_ws_append {ws l : List Char} (h : ∀ c ∈ ws, isPySpace c = true) :
    pySplitWs (ws ++ l) = pySplitWs l :=
  splitWsF_congr _ (List.dropWhile_append_of_pos h) (by omega) (by omega)

/-- A token of non-space characters joined to anything starting with a space
splits off as the first field. -/
theorem pySplitWs_tok_cons {t rest : List Char} (ht : t ≠ [])
    (hns : ∀ c ∈ t, isPySpace c = false) :
    pySplitWs (t ++ ' ' :: rest) = t :: pySplitWs rest := by
  have hsp : isPySpace ' ' = true := by decide
  cases t with
  | nil => exact absurd rfl ht
  | cons c cs =>
    have hcs : ∀ x ∈ cs, (fun x => !isPySpace x) x = true := by
      intro x hx
      simp [hns x (by simp [hx])]
    have hdw : (c :: cs ++ ' ' :: rest).dropWhile isPySpace
        = c :: (cs ++ ' ' :: rest) := by
      rw [List.cons_append]
      exact dropWhile_cons_of_false (hns c (by simp))
    unfold pySplitWs
    rw [splitWsF_succ_cons hdw]
    rw [List.takeWhile_append_of_pos hcs, List.dropWhile_append_of_pos hcs]
    rw [show (' ' :: rest).takeWhile (fun x => !isPySpace x) = [] by
      rw [List.takeWhile_cons, if_neg (by simp [hsp])]]
    rw [show (' ' :: rest).dropWhile (fun x => !isPySpace x) = ' ' :: rest from
      dropWhile_cons_of_false (by simp [hsp])]
    rw [List.append_nil]
    congr 1
    rw [pySplitWs_eq_fuel (by simp [List.length_append]; omega)]
    rw [show (' ' :: rest) = [' '] ++ rest from rfl,
      pySplitWs_ws_append (by intro x hx; simp at hx; simp [hx, hsp])]
    rfl

/-- A single non-space token splits to itself. -/
theorem pySplitWs_single {t : List Char} (ht : t ≠ [])
    (hns : ∀ c ∈ t, isPySpace c = false) : pySplitWs t = [t] := by
  cases t with
  | nil => exact absurd rfl ht
  | cons c cs =>
    have hdw : (c :: cs).dropWhile isPySpace = c :: cs :=
      dropWhile_cons_of_false (hns c (by simp))
    unfold pySplitWs
    rw [splitWsF_succ_cons hdw]
    rw [takeWhile_eq_self (p := fun x => !isPySpace x)
      (by intro x hx; simp [hns x (by simp [hx])])]
    rw [dropWhile_eq_nil (p := fun x => !isPySpace x)
      (by intro x hx; simp [hns x (by simp [hx])])]
    rw [splitWsF_nil]

theorem joinSpace_ne_nil {t : List Char} {ts : List (List Char)} (ht : t ≠ []) :
    joinSpace (t :: ts) ≠ [] := by
  cases ts with
  | nil => simpa [joinSpace] using ht
  | cons t2 ts' =>
    simp only [joinSpace]
    intro hcon
    rcases List.append_eq_nil.mp hcon with ⟨h1, _⟩
    exact ht h1

theorem mem_joinSpace {c : Char} :
    ∀ {ts : List (List Char)}, c ∈ joinSpace ts → (∃ t ∈ ts, c ∈ t) ∨ c = ' ' := by
  intro ts
  induction ts with
  | nil => intro h; cases h
  | cons t ts ih =>
    intro h
    cases ts with
    | nil =>
      simp only [joinSpace] at h
      exact .inl ⟨t, by simp, h⟩
    | cons t2 ts' =>
      simp only [joinSpace] at h
      rcases List.mem_append.mp h with h1 | h2
      · exact .inl ⟨t, by simp, h1⟩
      · rcases List.mem_cons.mp h2 with h3 | h4
        · exact .inr h3
        · rcases ih h4 with ⟨u, hu, hcu⟩ | hsp
          · exact .inl ⟨u, by simp [hu], hcu⟩
          · exact .inr hsp

/-- Splitting the space-joined list of non-empty non-space tokens recovers
the tokens. -/
theorem pySplitWs_joinSpace :
    ∀ {ts : List (List Char)},
      (∀ t ∈ ts, t ≠ [] ∧ ∀ c ∈ t, isPySpace c = false) →
      pySplitWs (joinSpace ts) = ts := by
  intro ts
  induction ts with
  | nil => intro; rfl
  | cons t ts ih =>
    intro h
    cases ts with
    | nil =>
      simp only [joinSpace]
      obtain ⟨ht, hns⟩ := h t (by simp)
      rw [pySplitWs_single ht hns]
    | cons t2 ts' =>
      simp only [joinSpace]
      obtain ⟨ht, hns⟩ := h t (by simp)
      rw [pySplitWs_tok_cons ht hns]
      congr 1
      exact ih (fun u hu => h u (by simp [hu]))


/-! ### Bookkeeping lemmas about messages and state fields -/

@[simp] theorem emit_msgs (m : Msg) (st : St) : (emit m st).msgs = st.msgs ++ [m] := rfl

@[simp] theorem emit_scratch (m : Msg) (st : St) : (emit m st).scratch = st.scratch := rfl

@[simp] theorem emit_scratchReset (m : Msg) (st : St) :
    (emit m st).scratchReset = st.scratchReset := rfl

@[simp] theorem emit_tmpZip (m : Msg) (st : St) : (emit m st).tmpZip = st.tmpZip := rfl

@[simp] theorem emit_finalZip (m : Msg) (st : St) : (emit m st).finalZip = st.finalZip := rfl

@[simp] theorem countFail_nil : countFail [] = 0 := rfl

@[simp] theorem countFail_append (xs ys : List Msg) :
    countFail (xs ++ ys) = countFail xs + countFail ys := by
  simp [countFail, List.filter_append]

@[simp] theorem countFail_step (s : List Char) : countFail [Msg.step s] = 0 := rfl

@[simp] theorem countFail_ok (s : List Char) : countFail [Msg.ok s] = 0 := rfl

@[simp] theorem countFail_warn (s : List Char) : countFail [Msg.warn s] = 0 := rfl

@[simp] theorem countFail_note (s : List Char) : countFail [Msg.note s] = 0 := rfl

@[simp] theorem countFail_fail (s : List Char) : countFail [Msg.fail s] = 1 := rfl

@[simp] theorem countFail_cons_step (s : List Char) (ms : List Msg) :
    countFail (Msg.step s :: ms) = countFail ms := by
  simp [countFail, List.filter_cons, isFailMsg]

@[simp] theorem countFail_cons_ok (s : List Char) (ms : List Msg) :
    countFail (Msg.ok s :: ms) = countFail ms := by
  simp [countFail, List.filter_cons, isFailMsg]

@[simp] theorem countFail_cons_warn (s : List Char) (ms : List Msg) :
    countFail (Msg.warn s :: ms) = countFail ms := by
  simp [countFail, List.filter_cons, isFailMsg]

@[simp] theorem countFail_cons_note (s : List Char) (ms : List Msg) :
    countFail (Msg.note s :: ms) = countFail ms := by
  simp [countFail, List.filter_cons, isFailMsg]

@[simp] theorem countFail_cons_fail (s : List Char) (ms : List Msg) :
    countFail (Msg.fail s :: ms) = countFail ms + 1 := by
  simp [countFail, List.filter_cons, isFailMsg, Nat.add_comm]

/-! ### Per-stage invariants: no stage of the body prints a `[FAIL]` line,
and each stage preserves the state fields it does not explicitly set. -/

theorem stepLocate_inv (env : Env) (st : St) :
    countFail (stepLocate env st).1.msgs = countFail st.msgs ∧
    (stepLocate env st).1.scratch = st.scratch ∧
    (stepLocate env st).1.scratchReset = st.scratchReset ∧
    (stepLocate env st).1.tmpZip = st.tmpZip ∧
    (stepLocate env st).1.finalZip = st.finalZip := by
  unfold stepLocate
  repeat' split
  all_goals simp

theorem stepBaseCfg_inv (p : List Char) (st : St) :
    countFail (stepBaseCfg p st).1.msgs = countFail st.msgs ∧
    (stepBaseCfg p st).1.scratch = st.scratch ∧
    (stepBaseCfg p st).1.scratchReset = st.scratchReset ∧
    (stepBaseCfg p st).1.tmpZip = st.tmpZip ∧
    (stepBaseCfg p st).1.finalZip = st.finalZip := by
  unfold stepBaseCfg
  repeat' split
  all_goals simp

theorem stepBaseLog_inv (p : List Char) (st : St) :
    countFail (stepBaseLog p st).1.msgs = countFail st.msgs ∧
    (stepBaseLog p st).1.scratch = st.scratch ∧
    (stepBaseLog p st).1.scratchReset = st.scratchReset ∧
    (stepBaseLog p st).1.tmpZip = st.tmpZip ∧
    (stepBaseLog p st).1.finalZip = st.finalZip := by
  unfold stepBaseLog
  repeat' split
  all_goals simp

theorem stepScratch_inv (st : St) :
    countFail (stepScratch st).msgs = countFail st.msgs ∧
    (stepScratch st).tmpZip = st.tmpZip ∧
    (stepScratch st).finalZip = st.finalZip := by
  simp [stepScratch]

theorem copyIfPresent_inv (env : Env) (srcDir file : List Char) (st : St) :
    countFail (copyIfPresent env srcDir file st).1.msgs = countFail st.msgs ∧
    (copyIfPresent env srcDir file st).1.tmpZip = st.tmpZip ∧
    (copyIfPresent env srcDir file st).1.finalZip = st.finalZip := by
  unfold copyIfPresent
  repeat' split
  all_goals simp

theorem stepLogsNewest_inv (env : Env) (logDir : List Char) (st : St) :
    countFail (stepLogsNewest env logDir st).1.msgs = countFail st.msgs ∧
    (stepLogsNewest env logDir st).1.tmpZip = st.tmpZip ∧
    (stepLogsNewest env logDir st).1.finalZip = st.finalZip := by
  unfold stepLogsNewest
  dsimp only
  repeat' split
  all_goals simp

theorem stepLogsMarker_inv (env : Env) (logDir : List Char) (st : St) :
    countFail (stepLogsMarker env logDir st).1.msgs = countFail st.msgs ∧
    (stepLogsMarker env logDir st).1.tmpZip = st.tmpZip ∧
    (stepLogsMarker env logDir st).1.finalZip = st.finalZip := by
  have h1 := copyIfPresent_inv env logDir ("klippy.log".data) st
  have h2 := copyIfPresent_inv env logDir ("moonraker.log".data)
    (copyIfPresent env logDir ("klippy.log".data) st).1
  have h3 := stepLogsNewest_inv env logDir
    (copyIfPresent env logDir ("moonraker.log".data)
      (copyIfPresent env logDir ("klippy.log".data) st).1).1
  unfold stepLogsMarker
  dsimp only
  repeat' split
  all_goals
    simp [h1.1, h1.2.1, h1.2.2, h2.1, h2.2.1, h2.2.2, h3.1, h3.2.1, h3.2.2]

theorem stepLogs_inv (env : Env) (lp : List Char) (st : St) :
    countFail (stepLogs env lp st).1.msgs = countFail st.msgs ∧
    (stepLogs env lp st).1.tmpZip = st.tmpZip ∧
    (stepLogs env lp st).1.finalZip = st.finalZip := by
  have hM := stepLogsMarker_inv env (dirname lp)
    (emit (Msg.step ("Copying selective logs".data)) st)
  unfold stepLogs
  dsimp only
  repeat' split
  all_goals
    simp_all [hM.1, hM.2.1, hM.2.2]

theorem stepConfig_inv (env : Env) (cp : List Char) (st : St) :
    countFail (stepConfig env cp st).1.msgs = countFail st.msgs ∧
    (stepConfig env cp st).1.tmpZip = st.tmpZip ∧
    (stepConfig env cp st).1.finalZip = st.finalZip := by
  unfold stepConfig
  repeat' split
  all_goals simp

theorem stepReports_inv (env : Env) (st : St) :
    countFail (stepReports env st).1.msgs = countFail st.msgs ∧
    (stepReports env st).1.tmpZip = st.tmpZip ∧
    (stepReports env st).1.finalZip = st.finalZip := by
  unfold stepReports
  repeat' split
  all_goals simp

theorem stepPack_inv (env : Env) (bp : List Char) (st : St) :
    countFail (stepPack env bp st).1.msgs = countFail st.msgs ∧
    ((stepPack env bp st).2.isSome = true → (stepPack env bp st).1.finalZip = st.finalZip) := by
  unfold stepPack
  dsimp only
  simp only [emit_msgs, emit_scratch, emit_scratchReset, emit_tmpZip, emit_finalZip]
  cases hz : (zipLoop env (walkFiles st.scratch) 0).2.1 with
  | some e => simp
  | none =>
    repeat' split
    all_goals simp

theorem andThen_inv (r : St × Option PyErr) (f : St → St × Option PyErr)
    (hf1 : ∀ st, countFail (f st).1.msgs = countFail st.msgs)
    (hf2 : ∀ st, (f st).2.isSome = true → (f st).1.finalZip = st.finalZip) :
    countFail (andThen r f).1.msgs = countFail r.1.msgs ∧
    ((andThen r f).2.isSome = true → (andThen r f).1.finalZip = r.1.finalZip) := by
  unfold andThen
  cases hr : r.2 with
  | some e => exact ⟨rfl, fun _ => rfl⟩
  | none => exact ⟨hf1 r.1, hf2 r.1⟩

/-- The body of `main` never prints a `[FAIL]` line itself, and if it stops
with a raised error then the final archive was never copied into place. -/
theorem mainBody_inv (env : Env) :
    countFail (mainBody env).1.msgs = 0 ∧
    ((mainBody env).2.isSome = true → (mainBody env).1.finalZip = none) := by
  unfold mainBody
  dsimp only
  cases hL : (stepLocate env St.init).2 with
  | error e =>
    exact ⟨((stepLocate_inv env _).1).trans rfl,
      fun _ => ((stepLocate_inv env _).2.2.2.2).trans rfl⟩
  | ok paths =>
    have hF3 : ∀ bp st2,
        countFail (andThen (stepReports env st2)
          (fun st3 => stepPack env bp st3)).1.msgs = countFail st2.msgs ∧
        ((andThen (stepReports env st2) (fun st3 => stepPack env bp st3)).2.isSome = true →
          (andThen (stepReports env st2)
            (fun st3 => stepPack env bp st3)).1.finalZip = st2.finalZip) := by
      intro bp st2
      have H := andThen_inv (stepReports env st2) (fun st3 => stepPack env bp st3)
        (fun st => (stepPack_inv env bp st).1) (fun st => (stepPack_inv env bp st).2)
      exact ⟨H.1.trans (stepReports_inv env st2).1,
        fun hs => (H.2 hs).trans (stepReports_inv env st2).2.2⟩
    have hF2 : ∀ bp st1,
        countFail (andThen (stepConfig env paths.1 st1)
          (fun st2 => andThen (stepReports env st2)
            (fun st3 => stepPack env bp st3))).1.msgs = countFail st1.msgs ∧
        ((andThen (stepConfig env paths.1 st1)
          (fun st2 => andThen (stepReports env st2)
            (fun st3 => stepPack env bp st3))).2.isSome = true →
          (andThen (stepConfig env paths.1 st1)
            (fun st2 => andThen (stepReports env st2)
              (fun st3 => stepPack env bp st3))).1.finalZip = st1.finalZip) := by
      intro bp st1
      have H := andThen_inv (stepConfig env paths.1 st1) _
        (fun st => (hF3 bp st).1) (fun st => (hF3 bp st).2)
      exact ⟨H.1.trans (stepConfig_inv env paths.1 st1).1,
        fun hs => (H.2 hs).trans (stepConfig_inv env paths.1 st1).2.2⟩
    have hF1 : ∀ bp st0,
        countFail (andThen (stepLogs env paths.2 st0)
          (fun st1 => andThen (stepConfig env paths.1 st1)
            (fun st2 => andThen (stepReports env st2)
              (fun st3 => stepPack env bp st3)))).1.msgs = countFail st0.msgs ∧
        ((andThen (stepLogs env paths.2 st0)
          (fun st1 => andThen (stepConfig env paths.1 st1)
            (fun st2 => andThen (stepReports env st2)
              (fun st3 => stepPack env bp st3)))).2.isSome = true →
          (andThen (stepLogs env paths.2 st0)
            (fun st1 => andThen (stepConfig env paths.1 st1)
              (fun st2 => andThen (stepReports env st2)
                (fun st3 => stepPack env bp st3)))).1.finalZip = st0.finalZip) := by
      intro bp st0
      have H := andThen_inv (stepLogs env paths.2 st0) _
        (fun st => (hF2 bp st).1) (fun st => (hF2 bp st).2)
      exact ⟨H.1.trans (stepLogs_inv env paths.2 st0).1,
        fun hs => (H.2 hs).trans (stepLogs_inv env paths.2 st0).2.2⟩
    constructor
    · exact ((hF1 _ _).1).trans
        ((stepScratch_inv _).1.trans
          ((stepBaseLog_inv _ _).1.trans
            ((stepBaseCfg_inv _ _).1.trans
              (((stepLocate_inv env _).1).trans rfl))))
    · intro hs
      exact (((hF1 _ _).2 hs).trans
        ((stepScratch_inv _).2.2.trans
          ((stepBaseLog_inv _ _).2.2.2.2.trans
            ((stepBaseCfg_inv _ _).2.2.2.2.trans
              (((stepLocate_inv env _).2.2.2.2).trans rfl)))))

/-! ### Extraction lemmas for the service and environment lines -/

theorem goodChar_spec {c : Char} (h : goodChar c = true) :
    isPySpace c = false ∧ c ≠ '"' ∧ c ≠ '=' := by
  simp only [goodChar, Bool.and_eq_true, bne_iff_ne, Bool.not_eq_true'] at h
  exact ⟨h.1.1, h.1.2, h.2⟩

theorem goodChar_not_space {c : Char} (h : goodChar c = true) : isPySpace c = false :=
  (goodChar_spec h).1

theorem goodChar_ne_quote {c : Char} (h : goodChar c = true) : c ≠ '"' :=
  (goodChar_spec h).2.1

theorem goodChar_ne_eq {c : Char} (h : goodChar c = true) : c ≠ '=' :=
  (goodChar_spec h).2.2

theorem goodTok_ne_nil {t : List Char} (h : goodTok t = true) : t ≠ [] := by
  simp [goodTok] at h
  simp [h.1]

theorem goodTok_chars {t : List Char} (h : goodTok t = true) :
    ∀ c ∈ t, goodChar c = true := by
  simp [goodTok, List.all_eq_true] at h
  exact h.2

theorem isPySpace_ne_eq {c : Char} (h : isPySpace c = true) : c ≠ '=' := by
  intro hc
  subst hc
  exact absurd h (by decide)

theorem isPySpace_ne_quote {c : Char} (h : isPySpace c = true) : c ≠ '"' := by
  intro hc
  subst hc
  exact absurd h (by decide)

theorem joinSpace_cons_head (q : Char) (t : List Char) (ts : List (List Char)) :
    q :: joinSpace (t :: ts) = joinSpace ((q :: t) :: ts) := by
  cases ts with
  | nil => rfl
  | cons x xs => simp [joinSpace]

/-- Characters of the joined token body are neither quotes nor equals signs
and every token is whitespace-free, when all tokens are good. -/
theorem joinSpace_chars {ts : List (List Char)}
    (h : ∀ t ∈ ts, goodTok t = true) :
    ∀ c ∈ joinSpace ts, c ≠ '"' ∧ c ≠ '=' := by
  intro c hc
  rcases mem_joinSpace hc with ⟨t, ht, hct⟩ | hsp
  · have := goodTok_chars (h t ht) c hct
    exact ⟨goodChar_ne_quote this, goodChar_ne_eq this⟩
  · subst hsp
    exact ⟨by decide, by decide⟩

theorem goodToks_nonspace {ts : List (List Char)}
    (h : ∀ t ∈ ts, goodTok t = true) :
    ∀ t ∈ ts, t ≠ [] ∧ ∀ c ∈ t, isPySpace c = false := by
  intro t ht
  exact ⟨goodTok_ne_nil (h t ht),
    fun c hc => goodChar_not_space (goodTok_chars (h t ht) c hc)⟩

/-- The positional extraction of lines 97–99 on a well-formed quoted value,
with optional whitespace between `=` and the opening quote. -/
theorem extractArgsPaths_master (k0 : Char) (ks ws4 : List Char)
    (t0 t1 t2 t3 t4 t5 : List Char) (restT : List (List Char))
    (hkeq : ∀ c ∈ k0 :: ks, c ≠ '=')
    (hws4 : ∀ c ∈ ws4, isPySpace c = true)
    (htoks : ∀ t ∈ t0 :: t1 :: t2 :: t3 :: t4 :: t5 :: restT, goodTok t = true) :
    extractArgsPaths ((k0 :: ks) ++ '=' ::
        (ws4 ++ '"' :: (joinSpace (t0 :: t1 :: t2 :: t3 :: t4 :: t5 :: restT) ++ ['"'])))
      = .ok (t1, t5) := by
  have hbody := joinSpace_chars htoks
  have hbody_ne : joinSpace (t0 :: t1 :: t2 :: t3 :: t4 :: t5 :: restT) ≠ [] :=
    joinSpace_ne_nil (goodTok_ne_nil (htoks t0 (by simp)))
  have hV_no_eq : ∀ c ∈ ws4 ++ '"' ::
      (joinSpace (t0 :: t1 :: t2 :: t3 :: t4 :: t5 :: restT) ++ ['"']), c ≠ '=' := by
    intro c hc
    rcases List.mem_append.mp hc with h1 | h2
    · exact isPySpace_ne_eq (hws4 c h1)
    · rcases List.mem_cons.mp h2 with h3 | h4
      · subst h3; decide
      · rcases List.mem_append.mp h4 with h5 | h6
        · exact (hbody c h5).2
        · simp at h6; subst h6; decide
  have hsplit : pySplitOnChar '=' ((k0 :: ks) ++ '=' ::
      (ws4 ++ '"' :: (joinSpace (t0 :: t1 :: t2 :: t3 :: t4 :: t5 :: restT) ++ ['"'])))
      = [k0 :: ks, ws4 ++ '"' ::
          (joinSpace (t0 :: t1 :: t2 :: t3 :: t4 :: t5 :: restT) ++ ['"'])] := by
    rw [pySplitOnChar_append _ hkeq, pySplitOnChar_no_sep hV_no_eq]
  have hstrip : pyStripChar '"' (ws4 ++ '"' ::
      (joinSpace (t0 :: t1 :: t2 :: t3 :: t4 :: t5 :: restT) ++ ['"'])) =
      ws4 ++ '"' :: joinSpace (t0 :: t1 :: t2 :: t3 :: t4 :: t5 :: restT) ∨
      (ws4 = [] ∧ pyStripChar '"' (ws4 ++ '"' ::
        (joinSpace (t0 :: t1 :: t2 :: t3 :: t4 :: t5 :: restT) ++ ['"'])) =
        joinSpace (t0 :: t1 :: t2 :: t3 :: t4 :: t5 :: restT)) := by
    cases ws4 with
    | nil =>
      right
      refine ⟨rfl, ?_⟩
      simpa using pyStripChar_wrap hbody_ne (fun c hc => (hbody c hc).1)
    | cons w ws =>
      left
      have hw : w ≠ '"' := isPySpace_ne_quote (hws4 w (by simp))
      simpa using pyStripChar_ws_wrap hw hbody_ne (fun c hc => (hbody c hc).1)
  unfold extractArgsPaths
  rw [hsplit]
  rcases hstrip with hst | ⟨hws, hst⟩
  · rw [show ([k0 :: ks, ws4 ++ '"' ::
        (joinSpace (t0 :: t1 :: t2 :: t3 :: t4 :: t5 :: restT) ++ ['"'])][1]?)
        = some (ws4 ++ '"' ::
          (joinSpace (t0 :: t1 :: t2 :: t3 :: t4 :: t5 :: restT) ++ ['"'])) from rfl]
    dsimp only
    rw [hst]
    cases ws4 with
    | nil =>
      rw [List.nil_append, joinSpace_cons_head,
        pySplitWs_joinSpace (by
          intro t ht
          rcases List.mem_cons.mp ht with h1 | h2
          · subst h1
            refine ⟨by simp, ?_⟩
            intro c hc
            rcases List.mem_cons.mp hc with hq | hcc
            · subst hq; decide
            · exact goodChar_not_space (goodTok_chars (htoks t0 (by simp)) c hcc)
          · exact goodToks_nonspace htoks t (by simp [h2]))]
      simp
    | cons w ws =>
      rw [show ((w :: ws) ++ '"' :: joinSpace (t0 :: t1 :: t2 :: t3 :: t4 :: t5 :: restT))
          = (w :: ws) ++ ('"' :: joinSpace (t0 :: t1 :: t2 :: t3 :: t4 :: t5 :: restT)) from rfl,
        pySplitWs_ws_append hws4, joinSpace_cons_head,
        pySplitWs_joinSpace (by
          intro t ht
          rcases List.mem_cons.mp ht with h1 | h2
          · subst h1
            refine ⟨by simp, ?_⟩
            intro c hc
            rcases List.mem_cons.mp hc with hq | hcc
            · subst hq; decide
            · exact goodChar_not_space (goodTok_chars (htoks t0 (by simp)) c hcc)
          · exact goodToks_nonspace htoks t (by simp [h2]))]
      simp
  · subst hws
    rw [show ([k0 :: ks, [] ++ '"' ::
        (joinSpace (t0 :: t1 :: t2 :: t3 :: t4 :: t5 :: restT) ++ ['"'])][1]?)
        = some ([] ++ '"' ::
          (joinSpace (t0 :: t1 :: t2 :: t3 :: t4 :: t5 :: restT) ++ ['"'])) from rfl]
    dsimp only
    rw [List.nil_append] at hst ⊢
    rw [hst, pySplitWs_joinSpace (goodToks_nonspace htoks)]
    simp

/-- `envExtract` (which first strips the raw line) on a well-formed
environment line, with optional whitespace between `=` and the quote. -/
theorem envExtract_master (k0 : Char) (ks ws4 : List Char)
    (t0 t1 t2 t3 t4 t5 : List Char) (restT : List (List Char))
    (hk0 : isPySpace k0 = false)
    (hkeq : ∀ c ∈ k0 :: ks, c ≠ '=')
    (hws4 : ∀ c ∈ ws4, isPySpace c = true)
    (htoks : ∀ t ∈ t0 :: t1 :: t2 :: t3 :: t4 :: t5 :: restT, goodTok t = true) :
    envExtract ((k0 :: ks) ++ '=' ::
        (ws4 ++ '"' :: (joinSpace (t0 :: t1 :: t2 :: t3 :: t4 :: t5 :: restT) ++ ['"'])))
      = .ok (t1, t5) := by
  have hshape : (k0 :: ks) ++ '=' ::
      (ws4 ++ '"' :: (joinSpace (t0 :: t1 :: t2 :: t3 :: t4 :: t5 :: restT) ++ ['"']))
      = k0 :: ((ks ++ '=' :: (ws4 ++ '"' ::
          joinSpace (t0 :: t1 :: t2 :: t3 :: t4 :: t5 :: restT))) ++ ['"']) := by
    simp
  unfold envExtract
  rw [hshape, pyStripWsBoth_ends hk0 (by decide), ← hshape]
  exact extractArgsPaths_master k0 ks ws4 t0 t1 t2 t3 t4 t5 restT hkeq hws4 htoks

/-- The service-line extraction of lines 81–84 on a well-formed
`EnvironmentFile` line, with optional whitespace around `=`. -/
theorem extractEnvPath_master (ws1 ws2 path : List Char)
    (hws1 : ∀ c ∈ ws1, isPySpace c = true) (hws2 : ∀ c ∈ ws2, isPySpace c = true)
    (hpath : goodTok path = true) :
    extractEnvPath [("EnvironmentFile".data ++ ws1) ++ '=' :: (ws2 ++ path)]
      = .ok path := by
  have hpref : ("EnvironmentFile".data).isPrefixOf
      (("EnvironmentFile".data ++ ws1) ++ '=' :: (ws2 ++ path)) = true := by
    rw [List.append_assoc]
    exact isPrefixOf_append _ _
  have hkeq : ∀ c ∈ "EnvironmentFile".data ++ ws1, c ≠ '=' := by
    intro c hc
    rcases List.mem_append.mp hc with h1 | h2
    · exact (show ∀ c ∈ "EnvironmentFile".data, c ≠ '=' by decide) c h1
    · exact isPySpace_ne_eq (hws1 c h2)
  have htail : ∀ c ∈ ws2 ++ path, c ≠ '=' := by
    intro c hc
    rcases List.mem_append.mp hc with h1 | h2
    · exact isPySpace_ne_eq (hws2 c h1)
    · exact goodChar_ne_eq (goodTok_chars hpath c h2)
  unfold extractEnvPath
  rw [show ([("EnvironmentFile".data ++ ws1) ++ '=' :: (ws2 ++ path)].filter
      (fun l => ("EnvironmentFile".data).isPrefixOf l))
      = [("EnvironmentFile".data ++ ws1) ++ '=' :: (ws2 ++ path)] by
    simp [List.filter_cons, hpref]]
  dsimp only
  rw [show pySplitOnChar '=' (("EnvironmentFile".data ++ ws1) ++ '=' :: (ws2 ++ path))
      = [("EnvironmentFile".data ++ ws1), ws2 ++ path] by
    rw [pySplitOnChar_append _ hkeq, pySplitOnChar_no_sep htail]]
  rw [show ([("EnvironmentFile".data ++ ws1), ws2 ++ path] : List (List Char))[1]?
      = some (ws2 ++ path) from rfl]
  dsimp only
  rw [pyStripWsBoth_ws_append hws2,
    pyStripWsBoth_eq_self (fun c hc =>
      goodChar_not_space (goodTok_chars hpath c hc))]

/-- A first line with no `=` at all makes the positional extraction raise
`IndexError`. -/
theorem extractArgsPaths_no_eq {line : List Char} (h : ∀ c ∈ line, c ≠ '=') :
    extractArgsPaths line = .error .indexError := by
  unfold extractArgsPaths
  rw [pySplitOnChar_no_sep h]
  rfl

theorem envExtract_no_eq {line : List Char} (h : ∀ c ∈ line, c ≠ '=') :
    envExtract line = .error .indexError :=
  extractArgsPaths_no_eq (fun c hc => h c (mem_of_pyStripWsBoth hc))

/-- A quoted value with fewer than six whitespace-separated tokens makes the
positional extraction raise `IndexError` at `[1]` or `[5]`. -/
theorem envExtract_short (k0 : Char) (ks : List Char) (toks : List (List Char))
    (hk0 : isPySpace k0 = false)
    (hkeq : ∀ c ∈ k0 :: ks, c ≠ '=')
    (htoks : ∀ t ∈ toks, goodTok t = true)
    (hlen : toks.length < 6) :
    envExtract ((k0 :: ks) ++ '=' :: '"' :: (joinSpace toks ++ ['"']))
      = .error .indexError := by
  have hshape : (k0 :: ks) ++ '=' :: '"' :: (joinSpace toks ++ ['"'])
      = k0 :: ((ks ++ '=' :: '"' :: joinSpace toks) ++ ['"']) := by
    simp
  unfold envExtract
  rw [hshape, pyStripWsBoth_ends hk0 (by decide), ← hshape]
  have hbody := joinSpace_chars htoks
  have hV_no_eq : ∀ c ∈ ('"' :: (joinSpace toks ++ ['"']) : List Char), c ≠ '=' := by
    intro c hc
    rcases List.mem_cons.mp hc with h1 | h2
    · subst h1; decide
    · rcases List.mem_append.mp h2 with h3 | h4
      · exact (hbody c h3).2
      · simp at h4; subst h4; decide
  unfold extractArgsPaths
  rw [show pySplitOnChar '=' ((k0 :: ks) ++ '=' :: '"' :: (joinSpace toks ++ ['"']))
      = [k0 :: ks, '"' :: (joinSpace toks ++ ['"'])] by
    rw [pySplitOnChar_append _ hkeq, pySplitOnChar_no_sep hV_no_eq]]
  rw [show ([k0 :: ks, '"' :: (joinSpace toks ++ ['"'])] : List (List Char))[1]?
      = some ('"' :: (joinSpace toks ++ ['"'])) from rfl]
  dsimp only
  cases toks with
  | nil =>
    rw [show pyStripChar '"' ('"' :: (joinSpace ([] : List (List Char)) ++ ['"'])) = [] by decide]
    rfl
  | cons t ts =>
    rw [pyStripChar_wrap (joinSpace_ne_nil (goodTok_ne_nil (htoks t (by simp))))
      (fun c hc => (hbody c hc).1)]
    rw [pySplitWs_joinSpace (goodToks_nonspace htoks)]
    cases h1 : (t :: ts)[1]? with
    | none => rfl
    | some c1 =>
      have h5 : (t :: ts)[5]? = none := by
        rw [List.getElem?_eq_none]
        simp at hlen ⊢
        omega
      rw [h5]

/-! ### Claim theorems -/

/-- C3: base-path derivation is idempotent — truncating at the literal
`printer_data` marker and re-appending it (or returning the path unchanged
when the marker is absent) gives the same result when applied to its own
output: `derive(derive(p)) = derive(p)` for every path string `p`. -/
theorem c3_derive_base_idempotent (p : List Char) :
    derive_base (derive_base p) = derive_base p :=
  derive_base_idem p

/-- C7 (amended): every error raised anywhere in the pipeline is caught
exactly once at the top level and printed as a single failure message, no
final archive copy is produced on such a run, and the process always exits
with status 0; a successful run prints no failure message.  (The claim's
"no partial archive" part fails for Packager errors — see the
counterexample — and is weakened here to "no final archive copy".) -/
theorem c7_top_level_handler (env : Env) :
    (mainRun env).2 = 0 ∧
    ((mainBody env).2.isSome = true →
      countFail (mainRun env).1.msgs = 1 ∧ (mainRun env).1.finalZip = none) ∧
    ((mainBody env).2 = none → countFail (mainRun env).1.msgs = 0) := by
  have hInv := mainBody_inv env
  unfold mainRun
  dsimp only
  cases hb : (mainBody env).2 with
  | none =>
    dsimp only
    exact ⟨rfl, fun hs => Bool.noConfusion hs, fun _ => hInv.1⟩
  | some e =>
    dsimp only
    refine ⟨rfl, fun _ => ⟨?_, ?_⟩, fun hco => Option.noConfusion hco⟩
    · rw [emit_msgs, countFail_append, hInv.1, countFail_fail]
    · rw [emit_finalZip]
      exact hInv.2 (by rw [hb]; rfl)

/-- C7 counterexample: with every stage healthy except the archive write of
the second walked file, an error is raised, yet a partial archive (one
entry, unfinished) exists at the fixed temporary path — contradicting the
claim that no partial archive copy is produced by an erroring run. -/
theorem c7_zip_error_leaves_archive_cex :
    (mainBody envZipFails).2 = some (.ioError ("disk full".data)) ∧
    (mainRun envZipFails).1.tmpZip
      = some ⟨["klippy.log_20240101_000000".data], false⟩ ∧
    (mainRun envZipFails).1.finalZip = none := by
  refine ⟨by decide, by decide, by decide⟩

/-- C7 witness: the amended theorem applied to a concrete run in which the
service file is missing. -/
theorem c7_top_level_handler_witness :
    (mainBody envNothing).2.isSome = true ∧
    countFail (mainRun envNothing).1.msgs = 1 ∧
    (mainRun envNothing).1.finalZip = none :=
  ⟨by decide, (c7_top_level_handler envNothing).2.1 (by decide)⟩

/-- C4: the newest-rotation selection filters the directory listing for
names starting with the prefix and matching `<...>.log.<YYYY-MM-DD>`, parses
each date suffix, and (when all candidate keys parse) returns a candidate
whose parsed date is at least every other candidate's; in particular, for
the listing `klippy.log.2024-01-01`, `klippy.log.2024-03-15`,
`klippy.log.2023-12-31` it returns `klippy.log.2024-03-15`. -/
theorem c4_newest_selection :
    (∀ (listing : List (List Char)) (pref : List Char),
      filteredFiles listing pref ≠ [] →
      (∀ f ∈ filteredFiles listing pref, (logDateKey f).isSome = true) →
      ∃ nf, get_newest_log listing pref = some nf ∧
        nf ∈ filteredFiles listing pref ∧
        ∀ g ∈ filteredFiles listing pref,
          encKey (logDateKey g) ≤ encKey (logDateKey nf)) ∧
    get_newest_log ["klippy.log.2024-01-01".data, "klippy.log.2024-03-15".data,
        "klippy.log.2023-12-31".data] ("klippy.log".data)
      = some ("klippy.log.2024-03-15".data) := by
  constructor
  · intro listing pref hne hall
    unfold get_newest_log
    have hemp : (filteredFiles listing pref).isEmpty = false := by
      cases h : (filteredFiles listing pref).isEmpty with
      | false => rfl
      | true => exact absurd (List.isEmpty_iff.mp h) hne
    rw [hemp]
    have hallb : ((filteredFiles listing pref).map logDateKey).all Option.isSome = true := by
      rw [List.all_eq_true]
      intro x hx
      rcases List.mem_map.mp hx with ⟨f, hf, hfx⟩
      rw [← hfx]
      exact hall f hf
    rw [hallb]
    set r : List Char → List Char → Prop :=
      fun a b => encKey (logDateKey b) ≤ encKey (logDateKey a) with hr
    haveI : IsTotal (List Char) r :=
      ⟨fun a b => Nat.le_total (encKey (logDateKey b)) (encKey (logDateKey a))⟩
    haveI : IsTrans (List Char) r :=
      ⟨fun a b c hab hbc => le_trans hbc hab⟩
    have hperm := List.perm_insertionSort r (filteredFiles listing pref)
    have hsorted := List.sorted_insertionSort r (filteredFiles listing pref)
    cases hs : (filteredFiles listing pref).insertionSort r with
    | nil =>
      rw [hs] at hperm
      exact absurd hperm.symm.eq_nil hne
    | cons nf tail =>
      refine ⟨nf, rfl, ?_, ?_⟩
      · have : nf ∈ (filteredFiles listing pref).insertionSort r := by rw [hs]; simp
        exact hperm.mem_iff.mp this
      · intro g hg
        have hgs : g ∈ (filteredFiles listing pref).insertionSort r :=
          hperm.mem_iff.mpr hg
        rw [hs] at hgs hsorted
        rcases List.mem_cons.mp hgs with h1 | h2
        · rw [h1]
        · exact List.rel_of_sorted_cons hsorted g h2
  · decide

/-- C4 witness: the general selection theorem applied to the concrete
three-rotation listing from the claim. -/
theorem c4_newest_selection_witness :
    (filteredFiles ["klippy.log.2024-01-01".data, "klippy.log.2024-03-15".data,
        "klippy.log.2023-12-31".data] ("klippy.log".data) ≠ [] ∧
      ∀ f ∈ filteredFiles ["klippy.log.2024-01-01".data, "klippy.log.2024-03-15".data,
        "klippy.log.2023-12-31".data] ("klippy.log".data), (logDateKey f).isSome = true) ∧
    ∃ nf, get_newest_log ["klippy.log.2024-01-01".data, "klippy.log.2024-03-15".data,
        "klippy.log.2023-12-31".data] ("klippy.log".data) = some nf ∧
      nf ∈ filteredFiles ["klippy.log.2024-01-01".data, "klippy.log.2024-03-15".data,
        "klippy.log.2023-12-31".data] ("klippy.log".data) ∧
      ∀ g ∈ filteredFiles ["klippy.log.2024-01-01".data, "klippy.log.2024-03-15".data,
        "klippy.log.2023-12-31".data] ("klippy.log".data),
        encKey (logDateKey g) ≤ encKey (logDateKey nf) :=
  ⟨⟨by decide, by decide⟩,
    c4_newest_selection.1 _ _ (by decide) (by decide)⟩

/-- C9 (amended): when the listing contains a file that passes the prefix
and regex filter but whose sort key — `strptime` applied to element 1 of
`f.split('.log.')`, the text between the first and second occurrences —
fails to parse, the selection returns no candidate at all, even when other
validly dated rotations are present. -/
theorem c9_bad_key_suppresses (listing : List (List Char)) (pref f : List Char)
    (hmem : f ∈ listing) (hpref : pref.isPrefixOf f = true)
    (hpat : matchesLogPattern f = true) (hkey : logDateKey f = none) :
    get_newest_log listing pref = none := by
  have hf : f ∈ filteredFiles listing pref := by
    rw [filteredFiles, List.mem_filter]
    exact ⟨hmem, by rw [hpref, hpat]; rfl⟩
  unfold get_newest_log
  have hemp : (filteredFiles listing pref).isEmpty = false := by
    cases h : (filteredFiles listing pref).isEmpty with
    | false => rfl
    | true => exact absurd (List.isEmpty_iff.mp h ▸ hf) (List.not_mem_nil f)
  rw [hemp]
  have hallb : ((filteredFiles listing pref).map logDateKey).all Option.isSome = false := by
    cases h : ((filteredFiles listing pref).map logDateKey).all Option.isSome with
    | false => rfl
    | true =>
      have := List.all_eq_true.mp h (logDateKey f) (List.mem_map.mpr ⟨f, hf, rfl⟩)
      rw [hkey] at this
      cases this
  rw [hallb]
  rfl

/-- C9 counterexample: `klippy.log.2024-01-01.log.2024-05-05` passes the
filter and the portion after the FIRST `.log.` occurrence is not a
parseable date, yet selection still returns a candidate: the code keys on
`split('.log.')[1]` (between the first and second occurrences), which does
parse — so the claim as stated is false. -/
theorem c9_after_first_split_cex :
    strptimeYmd (afterFirstSub (".log.".data)
        ("klippy.log.2024-01-01.log.2024-05-05".data)) = none ∧
    ("klippy.log".data).isPrefixOf ("klippy.log.2024-01-01.log.2024-05-05".data) = true ∧
    matchesLogPattern ("klippy.log.2024-01-01.log.2024-05-05".data) = true ∧
    get_newest_log ["klippy.log.2024-01-01.log.2024-05-05".data] ("klippy.log".data)
      = some ("klippy.log.2024-01-01.log.2024-05-05".data) := by
  refine ⟨by decide, by decide, by decide, by decide⟩

/-- C9 witness: one month-99 rotation suppresses selection even though a
validly dated rotation is present. -/
theorem c9_bad_key_witness :
    ("klippy.log.2024-99-01".data ∈
        ["klippy.log.2024-99-01".data, "klippy.log.2024-03-15".data] ∧
      ("klippy.log".data).isPrefixOf ("klippy.log.2024-99-01".data) = true ∧
      matchesLogPattern ("klippy.log.2024-99-01".data) = true ∧
      logDateKey ("klippy.log.2024-99-01".data) = none) ∧
    get_newest_log ["klippy.log.2024-99-01".data, "klippy.log.2024-03-15".data]
      ("klippy.log".data) = none :=
  ⟨⟨by decide, by decide, by decide, by decide⟩,
    c9_bad_key_suppresses
      ["klippy.log.2024-99-01".data, "klippy.log.2024-03-15".data]
      ("klippy.log".data) ("klippy.log.2024-99-01".data)
      (by decide) (by decide) (by decide) (by decide)⟩

/-- C2: for every environment file whose first line is `key="v0 v1 … v5 …"`
(a key with no `=` or whitespace, a double-quoted value of at least six
whitespace-separated tokens), the positional extraction of lines 97–99
returns the token at index 1 as the printer-config path and the token at
index 5 as the log-file path. -/
theorem c2_positional_extraction (key : List Char)
    (t0 t1 t2 t3 t4 t5 : List Char) (restT : List (List Char))
    (hkey : goodTok key = true)
    (htoks : ∀ t ∈ t0 :: t1 :: t2 :: t3 :: t4 :: t5 :: restT, goodTok t = true) :
    envExtract (key ++ '=' :: '"' ::
        (joinSpace (t0 :: t1 :: t2 :: t3 :: t4 :: t5 :: restT) ++ ['"']))
      = .ok (t1, t5) := by
  obtain ⟨k0, ks, rfl⟩ := List.exists_cons_of_ne_nil (goodTok_ne_nil hkey)
  have h := envExtract_master k0 ks [] t0 t1 t2 t3 t4 t5 restT
    (goodChar_not_space (goodTok_chars hkey k0 (by simp)))
    (fun c hc => goodChar_ne_eq (goodTok_chars hkey c hc))
    (by simp) htoks
  simpa using h

/-- C2 witness: the scenario of the spec, with the six tokens of
`KLIPPY_ARGS`, yields the config path at index 1 and the log path at
index 5. -/
theorem c2_positional_extraction_witness :
    goodTok "KLIPPY_ARGS".data = true ∧
    envExtract ("KLIPPY_ARGS".data ++ '=' :: '"' ::
        (joinSpace ["-I".data, "/tmp/printer_data/comms/klippy.sock".data,
          "-c".data, "/tmp/printer_data/config/printer.cfg".data,
          "-l".data, "/tmp/printer_data/logs/klippy.log".data] ++ ['"']))
      = .ok ("/tmp/printer_data/comms/klippy.sock".data,
             "/tmp/printer_data/logs/klippy.log".data) :=
  ⟨by decide,
    c2_positional_extraction "KLIPPY_ARGS".data "-I".data
      "/tmp/printer_data/comms/klippy.sock".data "-c".data
      "/tmp/printer_data/config/printer.cfg".data "-l".data
      "/tmp/printer_data/logs/klippy.log".data [] (by decide) (by decide)⟩

/-- C6: path extraction is a pure function of the file contents (it is
modelled as such), and inserting extra whitespace around the `=` separator
changes neither extracted result: the service-file extraction with
whitespace `ws1`/`ws2` around `=` equals the one without, and the
environment-line extraction with whitespace `ws3`/`ws4` around `=` equals
the one without. -/
theorem c6_ws_insensitive (ws1 ws2 ws3 ws4 path key : List Char)
    (t0 t1 t2 t3 t4 t5 : List Char) (restT : List (List Char))
    (hws1 : ∀ c ∈ ws1, isPySpace c = true) (hws2 : ∀ c ∈ ws2, isPySpace c = true)
    (hws3 : ∀ c ∈ ws3, isPySpace c = true) (hws4 : ∀ c ∈ ws4, isPySpace c = true)
    (hpath : goodTok path = true) (hkey : goodTok key = true)
    (htoks : ∀ t ∈ t0 :: t1 :: t2 :: t3 :: t4 :: t5 :: restT, goodTok t = true) :
    extractEnvPath [("EnvironmentFile".data ++ ws1) ++ '=' :: (ws2 ++ path)]
      = extractEnvPath ["EnvironmentFile".data ++ '=' :: path]
    ∧ envExtract ((key ++ ws3) ++ '=' ::
        (ws4 ++ '"' :: (joinSpace (t0 :: t1 :: t2 :: t3 :: t4 :: t5 :: restT) ++ ['"'])))
      = envExtract (key ++ '=' :: '"' ::
        (joinSpace (t0 :: t1 :: t2 :: t3 :: t4 :: t5 :: restT) ++ ['"'])) := by
  constructor
  · exact (extractEnvPath_master ws1 ws2 path hws1 hws2 hpath).trans
      (extractEnvPath_master [] [] path (by simp) (by simp) hpath).symm
  · obtain ⟨k0, ks, rfl⟩ := List.exists_cons_of_ne_nil (goodTok_ne_nil hkey)
    have hknospace := goodChar_not_space (goodTok_chars hkey k0 (by simp))
    have hkeq : ∀ c ∈ k0 :: (ks ++ ws3), c ≠ '=' := by
      intro c hc
      rcases List.mem_cons.mp hc with h1 | h2
      · exact goodChar_ne_eq (goodTok_chars hkey c (by simp [h1]))
      · rcases List.mem_append.mp h2 with h3 | h4
        · exact goodChar_ne_eq (goodTok_chars hkey c (by simp [h3]))
        · exact isPySpace_ne_eq (hws3 c h4)
    have hA := envExtract_master k0 (ks ++ ws3) ws4 t0 t1 t2 t3 t4 t5 restT
      hknospace hkeq hws4 htoks
    have hB := envExtract_master k0 ks [] t0 t1 t2 t3 t4 t5 restT hknospace
      (fun c hc => goodChar_ne_eq (goodTok_chars hkey c hc)) (by simp) htoks
    exact hA.trans hB.symm

/-- C6 witness: a single space on each side of `=` in both the service line
and the environment line leaves both extractions unchanged. -/
theorem c6_ws_insensitive_witness :
    goodTok "/tmp/env".data = true ∧
    (extractEnvPath [("EnvironmentFile".data ++ [' ']) ++ '=' ::
        ([' '] ++ "/tmp/env".data)]
      = extractEnvPath ["EnvironmentFile".data ++ '=' :: "/tmp/env".data]
    ∧ envExtract (("KLIPPY_ARGS".data ++ [' ']) ++ '=' ::
        ([' '] ++ '"' :: (joinSpace ["-I".data, "/tmp/a".data, "-c".data,
          "/tmp/b".data, "-l".data, "/tmp/c".data] ++ ['"'])))
      = envExtract ("KLIPPY_ARGS".data ++ '=' :: '"' ::
        (joinSpace ["-I".data, "/tmp/a".data, "-c".data,
          "/tmp/b".data, "-l".data, "/tmp/c".data] ++ ['"']))) :=
  ⟨by decide,
    c6_ws_insensitive [' '] [' '] [' '] [' '] "/tmp/env".data "KLIPPY_ARGS".data
      "-I".data "/tmp/a".data "-c".data "/tmp/b".data "-l".data "/tmp/c".data []
      (by decide) (by decide) (by decide) (by decide) (by decide) (by decide)
      (by decide)⟩

/-- When the service file exists and names an existing environment file
whose first line makes the positional extraction raise `IndexError`, the
Locator propagates exactly that error. -/
theorem stepLocate_snd_indexError (env : Env) (envPath L : List Char)
    (h1 : env.pathExists servicePath = true)
    (h2 : extractEnvPath (env.readLines servicePath) = .ok envPath)
    (h3 : env.pathExists envPath = true)
    (h4 : env.readFirstLine envPath = L)
    (h5 : envExtract L = .error PyErr.indexError) :
    (stepLocate env St.init).2 = .error PyErr.indexError := by
  unfold stepLocate
  dsimp only
  rw [if_pos h1, h2]
  dsimp only
  rw [if_pos h3, h4, h5]

/-- C10: when the environment file exists but its first line has no `=`
separator, or its double-quoted value has fewer than six
whitespace-separated tokens, the run aborts before any file is collected:
the out-of-range access raises `IndexError`, the top-level handler reports
it as the single `[FAIL]` message ("list index out of range"), the scratch
directory is never touched, no archive is produced, and the process still
exits with status 0. -/
theorem c10_short_env_line_aborts (env : Env) (envPath L key : List Char)
    (toks : List (List Char))
    (h1 : env.pathExists servicePath = true)
    (h2 : extractEnvPath (env.readLines servicePath) = .ok envPath)
    (h3 : env.pathExists envPath = true)
    (h4 : env.readFirstLine envPath = L)
    (hL : (∀ c ∈ L, c ≠ '=') ∨
      (L = key ++ '=' :: '"' :: (joinSpace toks ++ ['"']) ∧ goodTok key = true ∧
        (∀ t ∈ toks, goodTok t = true) ∧ toks.length < 6)) :
    (mainRun env).2 = 0 ∧
    countFail (mainRun env).1.msgs = 1 ∧
    Msg.fail "list index out of range".data ∈ (mainRun env).1.msgs ∧
    (mainRun env).1.scratch = [] ∧
    (mainRun env).1.scratchReset = false ∧
    (mainRun env).1.tmpZip = none ∧
    (mainRun env).1.finalZip = none := by
  have h5 : envExtract L = .error PyErr.indexError := by
    rcases hL with h | ⟨hLeq, hk, ht, hlen⟩
    · exact envExtract_no_eq h
    · subst hLeq
      obtain ⟨k0, ks, rfl⟩ := List.exists_cons_of_ne_nil (goodTok_ne_nil hk)
      exact envExtract_short k0 ks toks
        (goodChar_not_space (goodTok_chars hk k0 (by simp)))
        (fun c hc => goodChar_ne_eq (goodTok_chars hk c hc)) ht hlen
  have hsnd := stepLocate_snd_indexError env envPath L h1 h2 h3 h4 h5
  have hinv := stepLocate_inv env St.init
  have hmb : mainBody env = ((stepLocate env St.init).1, some PyErr.indexError) := by
    unfold mainBody
    dsimp only
    rw [hsnd]
  have hrun : mainRun env
      = (emit (.fail (PyErr.str PyErr.indexError)) (stepLocate env St.init).1, 0) := by
    unfold mainRun
    rw [hmb]
  rw [hrun]
  obtain ⟨hc, hs, hr, hz, hf⟩ := hinv
  refine ⟨rfl, ?_, ?_, ?_, ?_, ?_, ?_⟩
  · simp [hc]
    rfl
  · simp [PyErr.str]
  · simpa using hs
  · simpa using hr
  · simpa using hz
  · simpa using hf

/-- C10 witness: an environment file whose quoted value has only the two
tokens `-I /tmp/a` makes the run fail once with "list index out of range",
touch nothing, produce no archive, and exit 0. -/
theorem c10_short_env_line_aborts_witness :
    envShortLine.pathExists servicePath = true ∧
    ((mainRun envShortLine).2 = 0 ∧
     countFail (mainRun envShortLine).1.msgs = 1 ∧
     Msg.fail "list index out of range".data ∈ (mainRun envShortLine).1.msgs ∧
     (mainRun envShortLine).1.scratch = [] ∧
     (mainRun envShortLine).1.scratchReset = false ∧
     (mainRun envShortLine).1.tmpZip = none ∧
     (mainRun envShortLine).1.finalZip = none) :=
  ⟨by decide,
    c10_short_env_line_aborts envShortLine "/tmp/env".data
      ("KLIPPY_ARGS=".data ++ '"' :: ("-I /tmp/a".data ++ ['"']))
      "KLIPPY_ARGS".data ["-I".data, "/tmp/a".data]
      (by decide) rfl (by decide) rfl
      (Or.inr ⟨by decide, by decide, by decide, by decide⟩)⟩

/-- C5: for every log directory in which no filename matches the rotation
date pattern, log collection does not raise: `get_newest_log` returns no
candidate, the run records the status `No archived klippy log found.`, and
collection continues (the stage returns no error and still prints its
closing `Selective logs copied` status). -/
theorem c5_no_rotation_continues (env : Env) (logFilePath : List Char) (st : St)
    (hmk : hasMarker logFilePath = true)
    (hnone : ∀ f ∈ env.listdir (dirname logFilePath), matchesLogPattern f = false)
    (hcopy : ∀ a b, env.copy a b = none) :
    get_newest_log (env.listdir (dirname logFilePath)) "klippy.log".data = none ∧
    (stepLogs env logFilePath st).2 = none ∧
    Msg.ok "No archived klippy log found.".data ∈ (stepLogs env logFilePath st).1.msgs ∧
    Msg.ok "Selective logs copied".data ∈ (stepLogs env logFilePath st).1.msgs := by
  have hfilt : filteredFiles (env.listdir (dirname logFilePath)) "klippy.log".data = [] := by
    unfold filteredFiles
    rw [List.filter_eq_nil_iff]
    intro f hf
    simp [hnone f hf]
  have hg : get_newest_log (env.listdir (dirname logFilePath)) "klippy.log".data = none := by
    unfold get_newest_log
    rw [hfilt]
    rfl
  have hgnl : gnlParseFails (env.listdir (dirname logFilePath)) "klippy.log".data = false := by
    unfold gnlParseFails
    rw [hfilt]
    rfl
  have hN : ∀ s, stepLogsNewest env (dirname logFilePath) s
      = (emit (.ok "No archived klippy log found.".data) s, none) := by
    intro s
    unfold stepLogsNewest
    rw [hgnl, hg]
    simp
  have hCP2 : ∀ file s, (copyIfPresent env (dirname logFilePath) file s).2 = none := by
    intro file s
    unfold copyIfPresent
    rw [hcopy]
    split <;> rfl
  have hM : ∀ s, stepLogsMarker env (dirname logFilePath) s
      = (emit (.ok "No archived klippy log found.".data)
          (copyIfPresent env (dirname logFilePath) "moonraker.log".data
            (copyIfPresent env (dirname logFilePath) "klippy.log".data s).1).1, none) := by
    intro s
    unfold stepLogsMarker
    dsimp only
    rw [hCP2 "klippy.log".data s]
    dsimp only
    rw [hCP2 "moonraker.log".data _]
    dsimp only
    exact hN _
  have hSL : stepLogs env logFilePath st
      = (emit (.ok "Selective logs copied".data)
          (emit (.ok "No archived klippy log found.".data)
            (copyIfPresent env (dirname logFilePath) "moonraker.log".data
              (copyIfPresent env (dirname logFilePath) "klippy.log".data
                (emit (.step "Copying selective logs".data) st)).1).1), none) := by
    unfold stepLogs
    dsimp only
    rw [if_pos hmk, hM (emit (.step "Copying selective logs".data) st)]
  refine ⟨hg, ?_, ?_, ?_⟩ <;> rw [hSL] <;> simp

/-- C5 witness: a listing holding only `random.txt` yields no candidate, the
stage succeeds and both status lines are recorded. -/
theorem c5_no_rotation_continues_witness :
    (∀ f ∈ envNoRotation.listdir (dirname "/tmp/printer_data/logs/klippy.log".data),
      matchesLogPattern f = false) ∧
    (get_newest_log (envNoRotation.listdir
        (dirname "/tmp/printer_data/logs/klippy.log".data)) "klippy.log".data = none ∧
     (stepLogs envNoRotation "/tmp/printer_data/logs/klippy.log".data St.init).2 = none ∧
     Msg.ok "No archived klippy log found.".data
       ∈ (stepLogs envNoRotation "/tmp/printer_data/logs/klippy.log".data St.init).1.msgs ∧
     Msg.ok "Selective logs copied".data
       ∈ (stepLogs envNoRotation "/tmp/printer_data/logs/klippy.log".data St.init).1.msgs) :=
  ⟨by decide,
    c5_no_rotation_continues envNoRotation "/tmp/printer_data/logs/klippy.log".data St.init
      (by decide) (by decide) (fun a b => rfl)⟩

/-- C1 counterexample: with the `ip` executable missing, `subprocess.run`
raises `FileNotFoundError`, the run aborts inside the report stage, and the
remaining report (`dmesg.txt`) is never collected — captures are not
independent. -/
theorem c1_missing_ip_aborts_cex :
    (mainBody envIpMissing).2
      = some (.fileNotFound (execMissingMsg "ip".data)) ∧
    "dmesg.txt".data ∉ (mainBody envIpMissing).1.scratch ∧
    Msg.ok "dmesg information collected".data ∉ (mainBody envIpMissing).1.msgs := by
  decide

/-- C1 (amended): what lines 157–180 actually guarantee is weaker than the
claim: only the exit status of each diagnostic command is ignored.  When all
four executables can be spawned — whatever exit codes and output they
produce — the report stage raises nothing and adds all three report files;
but a missing executable raises and aborts the stage (see the
counterexample). -/
theorem c1_report_commands (env : Env) (st : St)
    (h1 : (env.run ["uname".data, "-a".data]).isRan = true)
    (h2 : (env.run ["cat".data, "/etc/os-release".data]).isRan = true)
    (h3 : (env.run ["ip".data, "-details".data, "-s".data,
            "link".data, "show".data]).isRan = true)
    (h4 : (env.run ["sudo".data, "dmesg".data]).isRan = true) :
    (stepReports env st).2 = none ∧
    (stepReports env st).1.scratch = st.scratch ++
      ["OS_Information.txt".data, "Network_Information.txt".data, "dmesg.txt".data] := by
  have hrc : ∀ argv, (env.run argv).isRan = true → runCmd env argv = none := by
    intro argv h
    unfold runCmd
    cases henv : env.run argv with
    | missing =>
      rw [henv] at h
      exact absurd h (by decide)
    | ran c out => rfl
  unfold stepReports
  dsimp only
  rw [hrc _ h1]
  dsimp only
  rw [hrc _ h2]
  dsimp only
  rw [hrc _ h3]
  dsimp only
  rw [hrc _ h4]
  dsimp only
  constructor
  · rfl
  · simp

/-- C1 witness: in the healthy environment all four commands spawn (with
exit code 0) and the report stage collects all three report files. -/
theorem c1_report_commands_witness :
    (envBase.run ["uname".data, "-a".data]).isRan = true ∧
    ((stepReports envBase St.init).2 = none ∧
     (stepReports envBase St.init).1.scratch = St.init.scratch ++
       ["OS_Information.txt".data, "Network_Information.txt".data, "dmesg.txt".data]) :=
  ⟨by decide,
    c1_report_commands envBase St.init (by decide) (by decide) (by decide) (by decide)⟩

/-- C8: when every archive write succeeds, the Packager adds every file of
the walk to the single archive at the fixed temporary path, and the entry
names are exactly the spec's description (`specEntryNames`): the relative
name with `_<timestamp>` appended after the full name, the timestamp being
re-read (`timeAt` counter advanced) for each entry rather than fixed once:
`zipLoop` consumes one clock reading per file, and the finished temporary
archive holds exactly those entries. -/
theorem c8_entry_naming (env : Env) (basePath : List Char) (st : St)
    (hzip : ∀ f, env.zipWrite f = none) :
    (∀ files n, zipLoop env files n
        = (specEntryNames env files n, none, n + files.length)) ∧
    (stepPack env basePath st).1.tmpZip
      = some ⟨specEntryNames env (walkFiles st.scratch) 0, true⟩ := by
  have hZ : ∀ files n, zipLoop env files n
      = (specEntryNames env files n, none, n + files.length) := by
    intro files
    induction files with
    | nil =>
      intro n
      simp [zipLoop, specEntryNames]
    | cons f rest ih =>
      intro n
      unfold zipLoop
      rw [hzip f]
      dsimp only
      rw [ih (n + 1)]
      simp [specEntryNames]
      omega
  refine ⟨hZ, ?_⟩
  unfold stepPack
  dsimp only
  rw [hZ _ 0]
  dsimp only
  repeat' split
  all_goals simp

/-- C8 witness: two files walked in the healthy environment produce the two
suffixed entries with consecutive clock readings, and the finished temporary
archive of a run over an empty scratch directory holds exactly the walked
entries. -/
theorem c8_entry_naming_witness :
    (∀ f, envBase.zipWrite f = none) ∧
    zipLoop envBase ["klippy.log".data, "printer.cfg".data] 0
      = (specEntryNames envBase ["klippy.log".data, "printer.cfg".data] 0, none,
         0 + ["klippy.log".data, "printer.cfg".data].length) ∧
    (stepPack envBase "/tmp/printer_data/".data St.init).1.tmpZip
      = some ⟨specEntryNames envBase (walkFiles St.init.scratch) 0, true⟩ :=
  ⟨fun _ => rfl,
    (c8_entry_naming envBase "/tmp/printer_data/".data St.init (fun _ => rfl)).1
      ["klippy.log".data, "printer.cfg".data] 0,
    (c8_entry_naming envBase "/tmp/printer_data/".data St.init (fun _ => rfl)).2⟩

end KlipperSupport
